import Mathlib

/-!
The PAC script of `proxy/pac.go`

`pac.go` carries a JavaScript program (the template `pacRawTmpl`) that a browser runs to
decide whether a host is reached directly or through the proxy.  This file embeds the three
functions of that script, `hostIsIP`, `host2Domain` and `FindProxyForURL`, together with the
ECMAScript string primitives they call, and proves properties of them.

A JavaScript string is a finite sequence of UTF-16 code units; it is modelled as the list of
those code units.  The value `-1` returned by `lastIndexOf` / `indexOf` is kept as an integer,
exactly as in the script.
-/

namespace Pac

/-! ## JavaScript strings -/

/-- A JavaScript string: the list of its UTF-16 code units. -/
abbrev JSString := List Nat

/-- The UTF-16 code units of one Unicode scalar value. -/
def utf16Units (c : Char) : List Nat :=
  if c.toNat < 65536 then [c.toNat]
  else [55296 + (c.toNat - 65536) / 1024, 56320 + (c.toNat - 65536) % 1024]

/-- The JavaScript string written as the given literal. -/
def utf16 (s : String) : JSString :=
  (s.toList.map utf16Units).flatten

/-- The code unit of `.` (U+002E). -/
def dot : Nat := 46

/-- `s.split('.')`: the maximal dot-free pieces of `s`, in order.  The empty string splits
into the one-element array holding the empty string. -/
def split : JSString → List JSString
  | [] => [[]]
  | c :: cs =>
    if c = dot then [] :: split cs
    else
      match split cs with
      | [] => [[c]]
      | p :: ps => (c :: p) :: ps

/-- `s.substring(start, end)` (`end = none` when the argument is omitted): both indices are
clamped to `[0, s.length]` and swapped when `start > end`. -/
def substring (s : JSString) (start : Int) (stop : Option Int) : JSString :=
  let len : Int := s.length
  let intEnd : Int := match stop with
    | none => len
    | some e => e
  let finalStart := min (max start 0) len
  let finalEnd := min (max intEnd 0) len
  let lo := min finalStart finalEnd
  let hi := max finalStart finalEnd
  (s.drop lo.toNat).take (hi - lo).toNat

/-- The largest index `i ≤ k` with `s[i] = c`, or `-1` when there is none. -/
def lastIndexFrom (s : JSString) (c : Nat) : Nat → Int
  | 0 => if s[0]? = some c then 0 else -1
  | k + 1 => if s[k + 1]? = some c then ((k + 1 : Nat) : Int) else lastIndexFrom s c k

/-- `s.lastIndexOf(c, position)` for a search string of the single code unit `c`
(`position = none` when the argument is omitted, which searches from the end).  The position
is clamped to `[0, s.length - 1]`, so a negative position still inspects index `0`. -/
def lastIndexOf (s : JSString) (c : Nat) (position : Option Int) : Int :=
  if s.length = 0 then -1
  else
    let last : Int := (s.length : Int) - 1
    let start : Int := match position with
      | none => last
      | some p => min (max p 0) last
    lastIndexFrom s c start.toNat

/-- The smallest index `k + i` such that `search` is a prefix of the `i`-th tail of `s`,
or `-1` when there is none. -/
def indexOfFrom (search : JSString) : JSString → Nat → Int
  | [], k => if search.isPrefixOf [] then (k : Int) else -1
  | c :: cs, k =>
    if search.isPrefixOf (c :: cs) then (k : Int) else indexOfFrom search cs (k + 1)

/-- `s.indexOf(search, position)`: the position is clamped to `[0, s.length]`. -/
def indexOf (s search : JSString) (position : Int) : Int :=
  let start : Int := min (max position 0) s.length
  indexOfFrom search (s.drop start.toNat) start.toNat

/-! ## `Number(string)` -/

/-- The code units skipped around a numeric string: ECMAScript `WhiteSpace` and
`LineTerminator`. -/
def isStrWhiteSpace (c : Nat) : Bool :=
  [9, 10, 11, 12, 13, 32, 160, 5760, 8232, 8233, 8239, 8287, 12288, 65279].contains c
    || (8192 ≤ c && c ≤ 8202)

/-- Removes leading and trailing white space. -/
def trimWhiteSpace (s : JSString) : JSString :=
  ((s.dropWhile isStrWhiteSpace).reverse.dropWhile isStrWhiteSpace).reverse

/-- The value of a decimal digit. -/
def decDigit (c : Nat) : Option Nat :=
  if 48 ≤ c ∧ c ≤ 57 then some (c - 48) else none

/-- The value of a hexadecimal digit. -/
def hexDigit (c : Nat) : Option Nat :=
  if 48 ≤ c ∧ c ≤ 57 then some (c - 48)
  else if 97 ≤ c ∧ c ≤ 102 then some (c - 87)
  else if 65 ≤ c ∧ c ≤ 70 then some (c - 55)
  else none

/-- The value of an octal digit. -/
def octDigit (c : Nat) : Option Nat :=
  if 48 ≤ c ∧ c ≤ 55 then some (c - 48) else none

/-- The value of a binary digit. -/
def binDigit (c : Nat) : Option Nat :=
  if 48 ≤ c ∧ c ≤ 49 then some (c - 48) else none

/-- The value of a non-empty run of digits in the given radix; `none` when the string is
empty or holds another code unit. -/
def digitsValue (radix : Nat) (digit : Nat → Option Nat) : JSString → Option Nat
  | [] => none
  | c :: cs =>
    (c :: cs).foldl
      (fun acc x =>
        match acc, digit x with
        | some a, some d => some (a * radix + d)
        | _, _ => none)
      (some 0)

/-- The production `DecimalDigits ExponentPart?` with a non-negative exponent. -/
def strUnsignedDecimal (s : JSString) : Option Nat :=
  let mant := s.takeWhile (fun c => (decDigit c).isSome)
  let rest := s.dropWhile (fun c => (decDigit c).isSome)
  match digitsValue 10 decDigit mant, rest with
  | some m, [] => some m
  | some m, e :: ex =>
    if e = 101 ∨ e = 69 then
      match ex with
      | 43 :: ds => (digitsValue 10 decDigit ds).map (fun x => m * 10 ^ x)
      | ds => (digitsValue 10 decDigit ds).map (fun x => m * 10 ^ x)
    else none
  | none, _ => none

/-- The production `StrDecimalLiteral`: an optional sign and an unsigned decimal. -/
def strDecimalLiteral (s : JSString) : Option Int :=
  match s with
  | 43 :: r => (strUnsignedDecimal r).map (fun v => (v : Int))
  | 45 :: r => (strUnsignedDecimal r).map (fun v => -(v : Int))
  | r => (strUnsignedDecimal r).map (fun v => (v : Int))

/-- The production `NonDecimalIntegerLiteral`: `0x`, `0o` or `0b` and digits, unsigned. -/
def nonDecimalInteger (s : JSString) : Option Nat :=
  match s with
  | 48 :: x :: r =>
    if x = 120 ∨ x = 88 then digitsValue 16 hexDigit r
    else if x = 111 ∨ x = 79 then digitsValue 8 octDigit r
    else if x = 98 ∨ x = 66 then digitsValue 2 binDigit r
    else none
  | _ => none

/-- `Number(s)` for the strings `hostIsIP` converts: at most three code units, none of them a
dot.  On these the ECMAScript `StringToNumber` yields an integer or `NaN` (`none`); a
fraction, a negative exponent or `Infinity` does not fit.  The script only compares the
result with `0`, `255`, `16` and `31`, where `-0` behaves as `0`, so `-0` is given as `0`. -/
def Number (s : JSString) : Option Int :=
  let t := trimWhiteSpace s
  if t = [] then some 0
  else
    match nonDecimalInteger t with
    | some v => some (v : Int)
    | none => strDecimalLiteral t

/-! ## Property lookup -/

/-- The property names every object inherits from `Object.prototype`; each holds a function
or an object, so reading it gives a truthy value. -/
def objectPrototypeKeys : List JSString :=
  [utf16 "constructor", utf16 "hasOwnProperty", utf16 "isPrototypeOf",
   utf16 "propertyIsEnumerable", utf16 "toLocaleString", utf16 "toString", utf16 "valueOf",
   utf16 "__proto__", utf16 "__defineGetter__", utf16 "__defineSetter__",
   utf16 "__lookupGetter__", utf16 "__lookupSetter__"]

/-- Truthiness of `obj[key]` for an object created by an object literal or `{}` whose own
properties are `own`, every one holding `true`: the key is an own property or one inherited
from `Object.prototype`. -/
def truthyProp (own : List JSString) (key : JSString) : Bool :=
  own.contains key || objectPrototypeKeys.contains key

/-! ## The script -/

/-- The check of one part in the loop of `hostIsIP`: `false` is the early
`return [false, false]`. -/
def partIsOctet (p : JSString) : Bool :=
  if p.length = 0 ∨ p.length > 3 then false
  else
    match Number p with
    | none => false
    | some n => if n < 0 ∨ n > 255 then false else true

/-- The function `hostIsIP` of the script: the pair `[isIP, isPrivate]`. -/
def hostIsIP (host : JSString) : Bool × Bool :=
  let part := split host
  if part.length ≠ 4 then (false, false)
  else if ¬ ([3, 2, 1, 0].all (fun i => partIsOctet (part.getD i []))) then (false, false)
  else if part.getD 0 [] = utf16 "127" ∨ part.getD 0 [] = utf16 "10"
      ∨ (part.getD 0 [] = utf16 "192" ∧ part.getD 1 [] = utf16 "168") then (true, true)
  else if part.getD 0 [] = utf16 "172" ∧
      (match Number (part.getD 1 []) with
        | none => false
        | some n => decide (16 ≤ n ∧ n ≤ 31)) = true then (true, true)
  else (true, false)

/-- The function `host2Domain` of the script; `topLevel` lists the keys of the object
`topLevel`, which the template fills from the Go table `topLevelDomain`. -/
def host2Domain (topLevel : List JSString) (host : JSString) : JSString :=
  let arr := hostIsIP host
  let isIP := arr.1
  let isPrivate := arr.2
  if isPrivate then []
  else if isIP then host
  else
    let lastDot := lastIndexOf host dot none
    if lastDot = -1 then []
    else
      let dot2ndLast := lastIndexOf host dot (some (lastDot - 1))
      if dot2ndLast = -1 then host
      else
        let part := substring host (dot2ndLast + 1) (some lastDot)
        if truthyProp topLevel part then
          let dot3rdLast := lastIndexOf host dot (some (dot2ndLast - 1))
          if dot3rdLast = -1 then host
          else substring host (dot3rdLast + 1) none
        else substring host (dot2ndLast + 1) none

/-- The script variable `direct`. -/
def direct : JSString := utf16 "DIRECT"

/-- The script variable `httpProxy`, with the proxy address the template inserts. -/
def httpProxy (proxyAddr : JSString) : JSString :=
  utf16 "PROXY " ++ proxyAddr ++ utf16 "; DIRECT"

/-- The array `directList` of the script: the empty string, then the direct domains. -/
def directList (directDomains : List JSString) : List JSString :=
  [] :: directDomains

/-- The function `FindProxyForURL` of the full script.  `directAcc` has one own property,
holding `true`, for every element of `directList`. -/
def FindProxyForURL (proxyAddr : JSString) (directDomains topLevel : List JSString)
    (url host : JSString) : JSString :=
  if substring url 0 (some 4) = utf16 "ftp:" then direct
  else if substring host 0 (some 7) = utf16 "::ffff:" then direct
  else if indexOf host (utf16 ".local") ((host.length : Int) - 6) ≠ -1 then direct
  else
    let domain := host2Domain topLevel host
    if host.length = domain.length then
      if truthyProp (directList directDomains) host then direct else httpProxy proxyAddr
    else
      if truthyProp (directList directDomains) host
          || truthyProp (directList directDomains) domain then direct
      else httpProxy proxyAddr

/-! ## Hosts written as dotted decimals -/

/-- The plain decimal numeral of `n`: digits only, no sign, no leading zero. -/
def decimal (n : Nat) : JSString :=
  (Nat.toDigits 10 n).map Char.toNat

/-- The host string `a.b.c.d` with every octet written as a plain decimal numeral. -/
def dotted (a b c d : Nat) : JSString :=
  decimal a ++ dot :: decimal b ++ dot :: decimal c ++ dot :: decimal d

/-- The four private ranges 10/8, 127/8, 192.168/16 and 172.16/12, by octet values. -/
def isPrivateRange (a b : Nat) : Prop :=
  a = 10 ∨ a = 127 ∨ (a = 192 ∧ b = 168) ∨ (a = 172 ∧ 16 ≤ b ∧ b ≤ 31)

instance (a b : Nat) : Decidable (isPrivateRange a b) := by
  unfold isPrivateRange
  infer_instance

/-- The value of a string of decimal digits, read left to right. -/
def decimalValue (p : JSString) : Nat :=
  p.foldl (fun acc c => acc * 10 + (c - 48)) 0

/-- A decimal octet: one to three decimal digits (leading zeros allowed) with value in
`[0,255]`. -/
def isDecimalOctet (p : JSString) : Bool :=
  decide (1 ≤ p.length) && decide (p.length ≤ 3)
    && p.all (fun c => decide (48 ≤ c ∧ c ≤ 57)) && decide (decimalValue p ≤ 255)

/-! ## The Go side: the direct list and the PAC document -/

/-- A Go `string` or `[]byte`: the list of its bytes. -/
abbrev GoString := List Nat

/-- The UTF-8 bytes of one Unicode scalar value. -/
def utf8Units (c : Char) : List Nat :=
  if c.toNat < 128 then [c.toNat]
  else if c.toNat < 2048 then [192 + c.toNat / 64, 128 + c.toNat % 64]
  else if c.toNat < 65536 then
    [224 + c.toNat / 4096, 128 + c.toNat / 64 % 64, 128 + c.toNat % 64]
  else
    [240 + c.toNat / 262144, 128 + c.toNat / 4096 % 64, 128 + c.toNat / 64 % 64,
      128 + c.toNat % 64]

/-- The Go string written as the given literal. -/
def utf8 (s : String) : GoString :=
  (s.toList.map utf8Units).flatten

/-- `strings.Join(elems, sep)`. -/
def Join : List GoString → GoString → GoString
  | [], _ => []
  | [a], _ => a
  | a :: b :: rest, sep => a ++ sep ++ Join (b :: rest) sep

/-- The fields of the variable `pac` that the document is made of (the parsed template is
the constant `pacRawTmpl`; the mutex holds no data). -/
structure PacVars where
  /-- The field `pac.topLevelDomain`. -/
  topLevelDomain : GoString
  /-- The field `pac.directList`. -/
  directList : GoString

/-- The function `getDirectList`. -/
def getDirectList (pac : PacVars) : GoString :=
  pac.directList

/-- The function `updateDirectList`; `siteStatDirectList` is what `siteStat.GetDirectList()`
returns. -/
def updateDirectList (siteStatDirectList : List GoString) (pac : PacVars) : PacVars :=
  { pac with directList := Join siteStatDirectList (utf8 "\",\n\"") }

/-- A piece of a parsed template: text copied as it is, or one of the three fields. -/
inductive TmplNode where
  | text (s : GoString)
  | ProxyAddr
  | DirectDomains
  | TopLevel

/-- The struct `data` that `genPAC` hands to the template. -/
structure PacData where
  /-- The field `ProxyAddr`. -/
  ProxyAddr : GoString
  /-- The field `DirectDomains`. -/
  DirectDomains : GoString
  /-- The field `TopLevel`. -/
  TopLevel : GoString

/-- The text of `pacRawTmpl` before the action for `.ProxyAddr`. -/
def tmplBeforeProxyAddr : GoString :=
  utf8 ("var direct = \x27DIRECT\x27;\n" ++
    "var httpProxy = \x27PROXY ")

/-- The text of `pacRawTmpl` from the action for `.ProxyAddr` to the array literal. -/
def tmplBeforeArray : GoString :=
  utf8 ("; DIRECT\x27;\n" ++
    "\n" ++
    "var directList = ")

/-- The opening of the array literal of `directList`, up to the action for
`.DirectDomains`. -/
def tmplArrayOpen : GoString :=
  utf8 ("[\n" ++
    "\"\",\n" ++
    "\"")

/-- The closing of the array literal of `directList`, after the action for
`.DirectDomains`. -/
def tmplArrayClose : GoString :=
  utf8 ("\"\n" ++
    "]")

/-- The text of `pacRawTmpl` from the array literal to the action for `.TopLevel`. -/
def tmplBeforeTopLevel : GoString :=
  utf8 (";\n" ++
    "\n" ++
    "var directAcc = \x7b\x7d;\n" ++
    "for (var i = 0; i < directList.length; i += 1) \x7b\n" ++
    "\tdirectAcc[directList[i]] = true;\n" ++
    "\x7d\n" ++
    "\n" ++
    "var topLevel = \x7b\n")

/-- The text of `pacRawTmpl` after the action for `.TopLevel`: the three functions. -/
def tmplFunctions : GoString :=
  utf8 ("\n" ++
    "\x7d;\n" ++
    "\n" ++
    "// hostIsIP determines whether a host address is an IP address and whether\n" ++
    "// it is private. Currenly only handles IPv4 addresses.\n" ++
    "function hostIsIP(host) \x7b\n" ++
    "\tvar part = host.split(\x27.\x27);\n" ++
    "\tif (part.length != 4) \x7b\n" ++
    "\t\treturn [false, false];\n" ++
    "\t\x7d\n" ++
    "\tvar n;\n" ++
    "\tfor (var i = 3; i >= 0; i--) \x7b\n" ++
    "\t\tif (part[i].length === 0 || part[i].length > 3) \x7b\n" ++
    "\t\t\treturn [false, false];\n" ++
    "\t\t\x7d\n" ++
    "\t\tn = Number(part[i]);\n" ++
    "\t\tif (isNaN(n) || n < 0 || n > 255) \x7b\n" ++
    "\t\t\treturn [false, false];\n" ++
    "\t\t\x7d\n" ++
    "\t\x7d\n" ++
    "\tif (part[0] == \x27127\x27 || part[0] == \x2710\x27 || (part[0] == \x27192\x27 && part[1] == \x27168\x27)) \x7b\n" ++
    "\t\treturn [true, true];\n" ++
    "\t\x7d\n" ++
    "\tif (part[0] == \x27172\x27) \x7b\n" ++
    "\t\tn = Number(part[1]);\n" ++
    "\t\tif (16 <= n && n <= 31) \x7b\n" ++
    "\t\t\treturn [true, true];\n" ++
    "\t\t\x7d\n" ++
    "\t\x7d\n" ++
    "\treturn [true, false];\n" ++
    "\x7d\n" ++
    "\n" ++
    "function host2Domain(host) \x7b\n" ++
    "\tvar arr, isIP, isPrivate;\n" ++
    "\tarr = hostIsIP(host);\n" ++
    "\tisIP = arr[0];\n" ++
    "\tisPrivate = arr[1];\n" ++
    "\tif (isPrivate) \x7b\n" ++
    "\t\treturn \"\";\n" ++
    "\t\x7d\n" ++
    "\tif (isIP) \x7b\n" ++
    "\t\treturn host;\n" ++
    "\t\x7d\n" ++
    "\n" ++
    "\tvar lastDot = host.lastIndexOf(\x27.\x27);\n" ++
    "\tif (lastDot === -1) \x7b\n" ++
    "\t\treturn \"\"; // simple host name has no domain\n" ++
    "\t\x7d\n" ++
    "\t// Find the second last dot\n" ++
    "\tdot2ndLast = host.lastIndexOf(\".\", lastDot-1);\n" ++
    "\tif (dot2ndLast === -1)\n" ++
    "\t\treturn host;\n" ++
    "\n" ++
    "\tvar part = host.substring(dot2ndLast+1, lastDot);\n" ++
    "\tif (topLevel[part]) \x7b\n" ++
    "\t\tvar dot3rdLast = host.lastIndexOf(\".\", dot2ndLast-1);\n" ++
    "\t\tif (dot3rdLast === -1) \x7b\n" ++
    "\t\t\treturn host;\n" ++
    "\t\t\x7d\n" ++
    "\t\treturn host.substring(dot3rdLast+1);\n" ++
    "\t\x7d\n" ++
    "\treturn host.substring(dot2ndLast+1);\n" ++
    "\x7d\n" ++
    "\n" ++
    "function FindProxyForURL(url, host) \x7b\n" ++
    "\tif (url.substring(0,4) == \"ftp:\")\n" ++
    "\t\treturn direct;\n" ++
    "\tif (host.substring(0,7) == \"::ffff:\")\n" ++
    "\t\treturn direct;\n" ++
    "\tif (host.indexOf(\".local\", host.length - 6) !== -1) \x7b\n" ++
    "\t\treturn direct;\n" ++
    "\t\x7d\n" ++
    "\tvar domain = host2Domain(host);\n" ++
    "\tif (host.length == domain.length) \x7b\n" ++
    "\t\treturn directAcc[host] ? direct : httpProxy;\n" ++
    "\t\x7d\n" ++
    "\treturn (directAcc[host] || directAcc[domain]) ? direct : httpProxy;\n" ++
    "\x7d\n")

/-- The constant `pacRawTmpl` as `template.Parse` reads it: text and three field actions. -/
def pacRawTmpl : List TmplNode :=
  [TmplNode.text tmplBeforeProxyAddr, TmplNode.ProxyAddr, TmplNode.text tmplBeforeArray,
   TmplNode.text tmplArrayOpen, TmplNode.DirectDomains, TmplNode.text tmplArrayClose,
   TmplNode.text tmplBeforeTopLevel, TmplNode.TopLevel, TmplNode.text tmplFunctions]

/-- What executing one node writes: `text/template` copies text and prints a string field as
it is, without escaping. -/
def TmplNode.render (data : PacData) : TmplNode → GoString
  | TmplNode.text s => s
  | TmplNode.ProxyAddr => data.ProxyAddr
  | TmplNode.DirectDomains => data.DirectDomains
  | TmplNode.TopLevel => data.TopLevel

/-- `template.Execute`: the output of the nodes, in order. -/
def execute (tmpl : List TmplNode) (data : PacData) : GoString :=
  (tmpl.map (TmplNode.render data)).flatten

/-- The line `fmt.Sprintf("\t\"%s\": true,\n", k)` written by the loop of `init`. -/
def topLevelEntry (k : GoString) : GoString :=
  utf8 "\t\"" ++ k ++ utf8 "\": true,\n"

/-- The value `init` stores in `pac.topLevelDomain`; `keys` are the keys of the Go table
`topLevelDomain` in the order the loop visits them.  The slice `buf.String()[:buf.Len()-2]`
panics (`none`) when the buffer holds fewer than two bytes. -/
def initTopLevelDomain (keys : List GoString) : Option GoString :=
  let buf := (keys.map topLevelEntry).flatten
  if buf.length < 2 then none else some (buf.take (buf.length - 2))

/-- The variable `pacHeader`. -/
def pacHeader : GoString :=
  utf8 ("HTTP/1.1 200 OK\r\nServer: cow-proxy\r\n" ++
    "Content-Type: application/x-ns-proxy-autoconfig\r\nConnection: close\r\n\r\n")

/-- What `genPAC` reads from its argument `c *clientConn`. -/
structure ClientConn where
  /-- Whether the type assertion `c.proxy.(*httpProxy)` succeeds. -/
  proxyIsHTTP : Bool
  /-- The field `hproxy.addrInPAC`. -/
  addrInPAC : GoString
  /-- The field `hproxy.port`. -/
  port : GoString
  /-- The string `c.LocalAddr().String()`. -/
  localAddr : GoString

/-- The first part of `genPAC`: the proxy address of the document.  `splitHostPort` gives
the host of `net.SplitHostPort` (`none` for an error) and `joinHostPort` is
`net.JoinHostPort`; `none` is a panic. -/
def pacProxyAddr (splitHostPort : GoString → Option GoString)
    (joinHostPort : GoString → GoString → GoString) (c : ClientConn) : Option GoString :=
  if c.proxyIsHTTP = false then none
  else if c.addrInPAC = [] then
    match splitHostPort c.localAddr with
    | none => none
    | some host => some (joinHostPort host c.port)
  else some c.addrInPAC

/-- The body of the minimal document: `fmt.Sprintf` with the proxy address. -/
def minimalBody (proxyAddr : GoString) : GoString :=
  utf8 "function FindProxyForURL(url, host) \x7b return \x27PROXY " ++ proxyAddr
    ++ utf8 "; DIRECT\x27; \x7d;"

/-- The function `genPAC`: the bytes of the response, `none` for a panic. -/
def genPAC (splitHostPort : GoString → Option GoString)
    (joinHostPort : GoString → GoString → GoString) (pac : PacVars) (c : ClientConn) :
    Option GoString :=
  match pacProxyAddr splitHostPort joinHostPort c with
  | none => none
  | some proxyAddr =>
    let dl := getDirectList pac
    if dl = [] then some (pacHeader ++ minimalBody proxyAddr)
    else some (pacHeader ++ execute pacRawTmpl ⟨proxyAddr, dl, pac.topLevelDomain⟩)

/-! ## Reading the generated script -/

/-- Reads a double-quoted string literal after its opening quote: the value and the text
after the closing quote.  Escape sequences are not modelled and a line terminator is a
syntax error (`none`). -/
def readStringLiteral : List Nat → Option (JSString × List Nat)
  | [] => none
  | c :: cs =>
    if c = 34 then some ([], cs)
    else if c = 92 ∨ c = 10 ∨ c = 13 ∨ c = 8232 ∨ c = 8233 then none
    else
      match readStringLiteral cs with
      | none => none
      | some (s, r) => some (c :: s, r)

/-- Skips white space and line terminators between two tokens. -/
def skipWhiteSpace (t : List Nat) : List Nat :=
  t.dropWhile isStrWhiteSpace

/-- Reads the elements of an array literal of string literals after its opening bracket:
the values and the text after the closing bracket; `none` when the text is not of this
form or the fuel runs out. -/
def parseElements : Nat → List Nat → Option (List JSString × List Nat)
  | 0, _ => none
  | fuel + 1, t =>
    match skipWhiteSpace t with
    | 34 :: t1 =>
      match readStringLiteral t1 with
      | none => none
      | some (s, t2) =>
        match skipWhiteSpace t2 with
        | 44 :: t3 =>
          match parseElements fuel t3 with
          | none => none
          | some (xs, r) => some (s :: xs, r)
        | 93 :: t3 => some ([s], t3)
        | _ => none
    | _ => none

/-- Reads an array literal of double-quoted string literals at the head of the script text
`t`, where a byte below 128 is the code unit of the same value: the elements and the text
after the closing bracket. -/
def parseArrayLiteral (t : List Nat) : Option (List JSString × List Nat) :=
  match t with
  | 91 :: t1 => parseElements t1.length t1
  | _ => none

/-- A byte that stands for itself inside a double-quoted string literal: below 128 and
neither a double quote, a backslash nor a line break. -/
def isPlainByte (b : Nat) : Bool :=
  decide (b < 128) && !(b == 34) && !(b == 92) && !(b == 10) && !(b == 13)

/-- Removes the text `pre` from the head of `t`; `none` when `t` does not start with it. -/
def expectText (pre t : List Nat) : Option (List Nat) :=
  if pre.isPrefixOf t then some (t.drop pre.length) else none

/-- Reads a single-quoted string literal after its opening quote: the value and the text
after the closing quote.  Escape sequences are not modelled and a line terminator is a
syntax error (`none`). -/
def readSingleQuoted : List Nat → Option (JSString × List Nat)
  | [] => none
  | c :: cs =>
    if c = 39 then some ([], cs)
    else if c = 92 ∨ c = 10 ∨ c = 13 ∨ c = 8232 ∨ c = 8233 then none
    else
      match readSingleQuoted cs with
      | none => none
      | some (s, r) => some (c :: s, r)

/-- Reads the entries `"key": true` of an object literal, separated by commas, up to the
closing brace: the keys and the text after the brace; `none` when the text is not of this
form or the fuel runs out. -/
def parseEntries : Nat → List Nat → Option (List JSString × List Nat)
  | 0, _ => none
  | fuel + 1, t =>
    match skipWhiteSpace t with
    | 34 :: t1 =>
      match readStringLiteral t1 with
      | none => none
      | some (k, t2) =>
        match skipWhiteSpace t2 with
        | 58 :: t3 =>
          match expectText (utf8 "true") (skipWhiteSpace t3) with
          | none => none
          | some t4 =>
            match skipWhiteSpace t4 with
            | 44 :: t5 =>
              match parseEntries fuel t5 with
              | none => none
              | some (ks, r) => some (k :: ks, r)
            | 125 :: t5 => some ([k], t5)
            | _ => none
        | _ => none
    | _ => none

/-- Reads an object literal with entries `"key": true` after its opening brace: the keys and
the text after the closing brace. -/
def parseObjectBody (t : List Nat) : Option (List JSString × List Nat) :=
  match skipWhiteSpace t with
  | 125 :: r => some ([], r)
  | _ => parseEntries t.length t

/-- Whether every byte of the string is below 128, so that the string read from the
document is the string of the same code units. -/
def isAscii (s : List Nat) : Bool :=
  s.all (fun b => decide (b < 128))

/-- The answer of the function `FindProxyForURL` that the document `doc` defines, read from
the bytes of the document.  After the header the document is either the minimal one, whose
function returns its one string literal, or the template text around three literals: the
string of `httpProxy`, the array of `directList` and the object of `topLevel`; the function
of the full script is then run with what these literals hold.  The result is `none` when
the document is of neither form (the script is a syntax error, as it is when the object
literal names `__proto__` twice, or a script this reader does not model, such as a literal
with an escape sequence or a byte above 127). -/
def servedFindProxyForURL (doc : GoString) (url host : JSString) : Option JSString :=
  match expectText pacHeader doc with
  | none => none
  | some body =>
    match expectText (utf8 "function FindProxyForURL(url, host) \x7b return \x27") body with
    | some t =>
      match readSingleQuoted t with
      | none => none
      | some (s, rest) => if rest = utf8 "; \x7d;" ∧ isAscii s = true then some s else none
    | none =>
      match expectText tmplBeforeProxyAddr body with
      | none => none
      | some t1 =>
        match readSingleQuoted t1 with
        | none => none
        | some (s, t2) =>
          if (utf8 "; DIRECT").isSuffixOf s = true ∧ isAscii s = true then
            match expectText (utf8 ";\n\nvar directList = ") t2 with
            | none => none
            | some t3 =>
              match parseArrayLiteral t3 with
              | some ([] :: L, t4) =>
                match expectText tmplBeforeTopLevel t4 with
                | none => none
                | some t5 =>
                  match parseObjectBody t5 with
                  | none => none
                  | some (keys, t6) =>
                    if t6 = tmplFunctions.drop 2 ∧ L.all isAscii = true
                        ∧ keys.all isAscii = true
                        ∧ keys.count (utf16 "__proto__") ≤ 1 then
                      some (FindProxyForURL (s.take (s.length - 8)) L keys url host)
                    else none
              | _ => none
          else none

/-- A byte that stands for itself inside a single-quoted string literal: below 128 and
neither a single quote, a backslash nor a line break. -/
def isPlainAddrByte (b : Nat) : Bool :=
  decide (b < 128) && !(b == 39) && !(b == 92) && !(b == 10) && !(b == 13)

/-! ## Splitting at dots -/

theorem split_ne_nil (s : JSString) : split s ≠ [] := by
  induction s with
  | nil => simp [split]
  | cons c cs ih =>
    unfold split
    split_ifs
    · simp
    · cases h : split cs <;> simp

theorem split_dot_free (s : JSString) (h : dot ∉ s) : split s = [s] := by
  induction s with
  | nil => rfl
  | cons c cs ih =>
    have hc : c ≠ dot := fun e => h (by simp [e])
    have hcs : dot ∉ cs := fun e => h (by simp [e])
    simp [split, hc, ih hcs]

theorem split_append_dot (p rest : JSString) (h : dot ∉ p) :
    split (p ++ dot :: rest) = p :: split rest := by
  induction p with
  | nil => simp [split]
  | cons c cs ih =>
    have hc : c ≠ dot := fun e => h (by simp [e])
    have hcs : dot ∉ cs := fun e => h (by simp [e])
    simp [split, hc, ih hcs]

/-! ## Searching for a code unit from the end -/

theorem lastIndexFrom_none (s : JSString) (c : Nat) (k : Nat)
    (h : ∀ j, j ≤ k → s[j]? ≠ some c) : lastIndexFrom s c k = -1 := by
  induction k with
  | zero => simp [lastIndexFrom, h 0 (le_refl 0)]
  | succ k ih =>
    have h1 := h (k + 1) (le_refl _)
    simp only [lastIndexFrom, h1, if_false]
    exact ih (fun j hj => h j (Nat.le_succ_of_le hj))

theorem lastIndexFrom_found (s : JSString) (c : Nat) (k i : Nat) (hik : i ≤ k)
    (hi : s[i]? = some c) (h : ∀ j, i < j → j ≤ k → s[j]? ≠ some c) :
    lastIndexFrom s c k = (i : Int) := by
  induction k with
  | zero =>
    have : i = 0 := Nat.le_zero.mp hik
    subst this
    simp [lastIndexFrom, hi]
  | succ k ih =>
    rcases Nat.lt_or_ge i (k + 1) with hlt | hge
    · have h1 := h (k + 1) hlt (le_refl _)
      simp only [lastIndexFrom, h1, if_false]
      exact ih (Nat.lt_succ_iff.mp hlt) (fun j hij hj => h j hij (Nat.le_succ_of_le hj))
    · have : i = k + 1 := le_antisymm hik hge
      subst this
      simp [lastIndexFrom, hi]

theorem getElem?_ne_of_not_mem (s : JSString) (c : Nat) (h : c ∉ s) (j : Nat) :
    s[j]? ≠ some c := by
  intro e
  exact h (List.getElem?_mem e)

theorem lastIndexOf_dot_free (s : JSString) (c : Nat) (pos : Option Int) (h : c ∉ s) :
    lastIndexOf s c pos = -1 := by
  unfold lastIndexOf
  split_ifs
  · rfl
  · exact lastIndexFrom_none s c _ (fun j _ => getElem?_ne_of_not_mem s c h j)

theorem lastIndexOf_found (s : JSString) (c : Nat) (pos : Option Int) (p i : Nat)
    (hpos : pos = some (p : Int)) (hip : i ≤ p) (hp : p < s.length) (hi : s[i]? = some c)
    (h : ∀ j, i < j → j ≤ p → s[j]? ≠ some c) : lastIndexOf s c pos = (i : Int) := by
  unfold lastIndexOf
  have hne : s.length ≠ 0 := by omega
  subst hpos
  simp only [hne, if_false]
  have hs : (min (max (p : Int) 0) ((s.length : Int) - 1)).toNat = p := by omega
  rw [hs]
  exact lastIndexFrom_found s c p i hip hi h

theorem lastIndexOf_last (pre l : JSString) (c : Nat) (h : c ∉ l) :
    lastIndexOf (pre ++ c :: l) c none = (pre.length : Int) := by
  unfold lastIndexOf
  have hne : (pre ++ c :: l).length ≠ 0 := by simp
  simp only [hne, if_false]
  apply lastIndexFrom_found
  · simp
    omega
  · rw [List.getElem?_append_right (le_refl _)]
    simp
  · intro j hj _ e
    rw [List.getElem?_append_right (by omega)] at e
    obtain ⟨m, hm⟩ : ∃ m, j - pre.length = m + 1 := ⟨j - pre.length - 1, by omega⟩
    rw [hm, List.getElem?_cons_succ] at e
    exact h (List.getElem?_mem e)

theorem lastIndexOf_before (pre l rest : JSString) (c : Nat) (h : c ∉ l) (q : Int)
    (hq : q = (pre.length : Int) + (l.length : Int)) :
    lastIndexOf (pre ++ c :: l ++ c :: rest) c (some q) = (pre.length : Int) := by
  apply lastIndexOf_found _ c _ (pre.length + l.length) pre.length
  · rw [hq]
    simp
  · omega
  · simp
    omega
  · rw [List.append_assoc, List.getElem?_append_right (le_refl _)]
    simp
  · intro j hj hj2 e
    rw [List.append_assoc, List.getElem?_append_right (by omega)] at e
    obtain ⟨m, hm⟩ : ∃ m, j - pre.length = m + 1 := ⟨j - pre.length - 1, by omega⟩
    rw [hm] at e
    simp only [List.cons_append, List.getElem?_cons_succ] at e
    rw [List.getElem?_append_left (by omega)] at e
    exact h (List.getElem?_mem e)

theorem lastIndexOf_absent_before (l rest : JSString) (c : Nat) (h : c ∉ l) (hl : l ≠ [])
    (q : Int) (hq : q = (l.length : Int) - 1) :
    lastIndexOf (l ++ c :: rest) c (some q) = -1 := by
  have hlen : 0 < l.length := List.length_pos.mpr hl
  unfold lastIndexOf
  have hne : (l ++ c :: rest).length ≠ 0 := by simp
  simp only [hne, if_false]
  have hs : (min (max q 0) (((l ++ c :: rest).length : Int) - 1)).toNat = l.length - 1 := by
    simp only [List.length_append, List.length_cons]
    omega
  rw [hs]
  apply lastIndexFrom_none
  intro j hj e
  rw [List.getElem?_append_left (by omega)] at e
  exact h (List.getElem?_mem e)

theorem lastIndexOf_neg_at_head (rest : JSString) (c : Nat) (q : Int) (hq : q < 0) :
    lastIndexOf (c :: rest) c (some q) = 0 := by
  unfold lastIndexOf
  have hs : (min (max q 0) (((c :: rest).length : Int) - 1)).toNat = 0 := by
    simp only [List.length_cons]
    omega
  have hne : (c :: rest).length ≠ 0 := by simp
  simp only [hne, if_false]
  rw [hs]
  simp [lastIndexFrom]

/-! ## Substrings -/

theorem substring_from (a b : JSString) (q : Int) (hq : q = (a.length : Int)) :
    substring (a ++ b) q none = b := by
  unfold substring
  subst hq
  simp only [List.length_append]
  have h1 : (min (min (max (a.length : Int) 0) ((a.length + b.length : Nat) : Int))
      (min (max ((a.length + b.length : Nat) : Int) 0) ((a.length + b.length : Nat) : Int))).toNat
      = a.length := by omega
  have h2 : (max (min (max (a.length : Int) 0) ((a.length + b.length : Nat) : Int))
      (min (max ((a.length + b.length : Nat) : Int) 0) ((a.length + b.length : Nat) : Int))
      - min (min (max (a.length : Int) 0) ((a.length + b.length : Nat) : Int))
      (min (max ((a.length + b.length : Nat) : Int) 0) ((a.length + b.length : Nat) : Int))).toNat
      = b.length := by omega
  rw [h1, h2, List.drop_left, List.take_length]

theorem substring_between (a b c : JSString) (q r : Int) (hq : q = (a.length : Int))
    (hr : r = (a.length : Int) + (b.length : Int)) :
    substring (a ++ b ++ c) q (some r) = b := by
  unfold substring
  subst hq hr
  simp only [List.length_append]
  have h1 : (min (min (max (a.length : Int) 0) ((a.length + b.length + c.length : Nat) : Int))
      (min (max ((a.length : Int) + (b.length : Int)) 0)
        ((a.length + b.length + c.length : Nat) : Int))).toNat = a.length := by omega
  have h2 : (max (min (max (a.length : Int) 0) ((a.length + b.length + c.length : Nat) : Int))
      (min (max ((a.length : Int) + (b.length : Int)) 0)
        ((a.length + b.length + c.length : Nat) : Int))
      - min (min (max (a.length : Int) 0) ((a.length + b.length + c.length : Nat) : Int))
      (min (max ((a.length : Int) + (b.length : Int)) 0)
        ((a.length + b.length + c.length : Nat) : Int))).toNat = b.length := by omega
  rw [h1, h2, List.append_assoc, List.drop_left, List.take_left]

/-! ## The branches of `host2Domain` -/

theorem hostIsIP_snd_false (host : JSString) (h : (hostIsIP host).1 = false) :
    (hostIsIP host).2 = false := by
  unfold hostIsIP at h ⊢
  simp only at h ⊢
  split_ifs at h ⊢ <;> simp_all

theorem hostIsIP_of_length_ne (host : JSString) (h : (split host).length ≠ 4) :
    hostIsIP host = (false, false) := by
  unfold hostIsIP
  simp [h]

/-- A host without a dot is reduced to the empty string. -/
theorem host2Domain_dot_free (tbl : List JSString) (host : JSString) (h : dot ∉ host) :
    host2Domain tbl host = [] := by
  have hip : hostIsIP host = (false, false) :=
    hostIsIP_of_length_ne host (by rw [split_dot_free host h]; simp)
  unfold host2Domain
  simp [hip, lastIndexOf_dot_free host dot none h]

/-- A host with one dot that is not its first code unit is returned whole. -/
theorem host2Domain_one_dot (tbl : List JSString) (l2 l1 : JSString) (h2 : dot ∉ l2)
    (h1 : dot ∉ l1) (hne : l2 ≠ []) : host2Domain tbl (l2 ++ dot :: l1) = l2 ++ dot :: l1 := by
  have hip : hostIsIP (l2 ++ dot :: l1) = (false, false) :=
    hostIsIP_of_length_ne _ (by rw [split_append_dot l2 l1 h2, split_dot_free l1 h1]; simp)
  have hLast := lastIndexOf_last l2 l1 dot h1
  have h2nd := lastIndexOf_absent_before l2 l1 dot h2 hne ((l2.length : Int) - 1) rfl
  have hlen : ((l2.length : Int) = -1) = False := by
    simp only [eq_iff_iff, iff_false]
    omega
  unfold host2Domain
  simp only [hip, hLast, h2nd, hlen]
  simp

/-- A host whose only dot is its first code unit loses that dot. -/
theorem host2Domain_leading_dot (tbl : List JSString) (l1 : JSString) (h1 : dot ∉ l1) :
    host2Domain tbl (dot :: l1) = l1 := by
  have hip : hostIsIP (dot :: l1) = (false, false) :=
    hostIsIP_of_length_ne _ (by
      rw [show dot :: l1 = [] ++ dot :: l1 from rfl, split_append_dot [] l1 (by simp),
        split_dot_free l1 h1]
      simp)
  have hLast : lastIndexOf (dot :: l1) dot none = 0 := by
    have := lastIndexOf_last [] l1 dot h1
    simpa using this
  have h2nd : lastIndexOf (dot :: l1) dot (some (0 - 1)) = 0 :=
    lastIndexOf_neg_at_head l1 dot _ (by omega)
  have hres : substring (dot :: l1) (0 + 1) none = l1 :=
    substring_from [dot] l1 _ (by simp)
  unfold host2Domain
  simp only [hip, hLast, h2nd, hres]
  simp

/-- With at least two dots and a label that reads falsy in `topLevel`, the last two labels
are returned. -/
theorem host2Domain_two_labels (tbl : List JSString) (pre l2 l1 : JSString) (h2 : dot ∉ l2)
    (h1 : dot ∉ l1) (hip : (hostIsIP (pre ++ dot :: l2 ++ dot :: l1)).1 = false)
    (ht : truthyProp tbl l2 = false) :
    host2Domain tbl (pre ++ dot :: l2 ++ dot :: l1) = l2 ++ dot :: l1 := by
  have hpriv := hostIsIP_snd_false _ hip
  have hLast := lastIndexOf_last (pre ++ dot :: l2) l1 dot h1
  have h2nd := lastIndexOf_before pre l2 l1 dot h2 (((pre ++ dot :: l2).length : Int) - 1)
    (by simp only [List.length_append, List.length_cons]; omega)
  have hpart : substring (pre ++ dot :: l2 ++ dot :: l1) ((pre.length : Int) + 1)
      (some ((pre ++ dot :: l2).length : Int)) = l2 := by
    have := substring_between (pre ++ [dot]) l2 (dot :: l1) ((pre.length : Int) + 1)
      ((pre ++ dot :: l2).length : Int) (by simp) (by simp; omega)
    simpa using this
  have hres : substring (pre ++ dot :: l2 ++ dot :: l1) ((pre.length : Int) + 1) none
      = l2 ++ dot :: l1 := by
    have := substring_from (pre ++ [dot]) (l2 ++ dot :: l1) ((pre.length : Int) + 1) (by simp)
    simpa using this
  have hl1 : (((pre ++ dot :: l2).length : Int) = -1) = False := by
    simp only [eq_iff_iff, iff_false]
    omega
  have hl2 : ((pre.length : Int) = -1) = False := by
    simp only [eq_iff_iff, iff_false]
    omega
  unfold host2Domain
  simp only [hip, hpriv, hLast, h2nd, hpart, hres, ht, hl1, hl2]
  simp

/-- With at least three dots and a label that reads truthy in `topLevel`, the last three
labels are returned. -/
theorem host2Domain_three_labels (tbl : List JSString) (pre l3 l2 l1 : JSString)
    (h3 : dot ∉ l3) (h2 : dot ∉ l2) (h1 : dot ∉ l1)
    (hip : (hostIsIP (pre ++ dot :: l3 ++ dot :: l2 ++ dot :: l1)).1 = false)
    (ht : truthyProp tbl l2 = true) :
    host2Domain tbl (pre ++ dot :: l3 ++ dot :: l2 ++ dot :: l1)
      = l3 ++ dot :: l2 ++ dot :: l1 := by
  have hpriv := hostIsIP_snd_false _ hip
  have hLast := lastIndexOf_last (pre ++ dot :: l3 ++ dot :: l2) l1 dot h1
  have h2nd := lastIndexOf_before (pre ++ dot :: l3) l2 l1 dot h2
    (((pre ++ dot :: l3 ++ dot :: l2).length : Int) - 1)
    (by simp only [List.length_append, List.length_cons]; omega)
  have hpart : substring (pre ++ dot :: l3 ++ dot :: l2 ++ dot :: l1)
      (((pre ++ dot :: l3).length : Int) + 1)
      (some ((pre ++ dot :: l3 ++ dot :: l2).length : Int)) = l2 := by
    have := substring_between (pre ++ dot :: l3 ++ [dot]) l2 (dot :: l1)
      (((pre ++ dot :: l3).length : Int) + 1)
      ((pre ++ dot :: l3 ++ dot :: l2).length : Int) (by simp only [List.length_append, List.length_cons, List.length_nil]; omega)
      (by simp only [List.length_append, List.length_cons, List.length_nil]; omega)
    simpa using this
  have h3rd : lastIndexOf (pre ++ dot :: l3 ++ dot :: l2 ++ dot :: l1) dot
      (some (((pre ++ dot :: l3).length : Int) - 1)) = (pre.length : Int) := by
    have := lastIndexOf_before pre l3 (l2 ++ dot :: l1) dot h3
      (((pre ++ dot :: l3).length : Int) - 1)
      (by simp only [List.length_append, List.length_cons]; omega)
    simpa using this
  have hres : substring (pre ++ dot :: l3 ++ dot :: l2 ++ dot :: l1) ((pre.length : Int) + 1)
      none = l3 ++ dot :: l2 ++ dot :: l1 := by
    have := substring_from (pre ++ [dot]) (l3 ++ dot :: l2 ++ dot :: l1)
      ((pre.length : Int) + 1) (by simp)
    simpa using this
  have hl1 : (((pre ++ dot :: l3 ++ dot :: l2).length : Int) = -1) = False := by
    simp only [eq_iff_iff, iff_false]
    omega
  have hl2 : (((pre ++ dot :: l3).length : Int) = -1) = False := by
    simp only [eq_iff_iff, iff_false]
    omega
  have hl3 : ((pre.length : Int) = -1) = False := by
    simp only [eq_iff_iff, iff_false]
    omega
  unfold host2Domain
  simp only [hip, hpriv, hLast, h2nd, hpart, h3rd, hres, ht, hl1, hl2, hl3]
  simp

/-- With exactly two dots, the first of them not at index 0, and a label that reads truthy in
`topLevel`, the host is returned whole. -/
theorem host2Domain_three_labels_whole (tbl : List JSString) (l3 l2 l1 : JSString)
    (h3 : dot ∉ l3) (h2 : dot ∉ l2) (h1 : dot ∉ l1) (hne : l3 ≠ [])
    (ht : truthyProp tbl l2 = true) :
    host2Domain tbl (l3 ++ dot :: l2 ++ dot :: l1) = l3 ++ dot :: l2 ++ dot :: l1 := by
  have hip : hostIsIP (l3 ++ dot :: l2 ++ dot :: l1) = (false, false) :=
    hostIsIP_of_length_ne _ (by
      rw [List.append_assoc, List.cons_append, split_append_dot l3 _ h3,
        split_append_dot l2 l1 h2, split_dot_free l1 h1]
      simp)
  have hLast := lastIndexOf_last (l3 ++ dot :: l2) l1 dot h1
  have h2nd : lastIndexOf (l3 ++ dot :: l2 ++ dot :: l1) dot
      (some (((l3 ++ dot :: l2).length : Int) - 1)) = (l3.length : Int) := by
    have := lastIndexOf_before l3 l2 l1 dot h2 (((l3 ++ dot :: l2).length : Int) - 1)
      (by simp only [List.length_append, List.length_cons]; omega)
    simpa using this
  have hpart : substring (l3 ++ dot :: l2 ++ dot :: l1) ((l3.length : Int) + 1)
      (some ((l3 ++ dot :: l2).length : Int)) = l2 := by
    have := substring_between (l3 ++ [dot]) l2 (dot :: l1) ((l3.length : Int) + 1)
      ((l3 ++ dot :: l2).length : Int) (by simp only [List.length_append, List.length_cons, List.length_nil]; omega)
      (by simp only [List.length_append, List.length_cons, List.length_nil]; omega)
    simpa using this
  have h3rd : lastIndexOf (l3 ++ dot :: l2 ++ dot :: l1) dot
      (some ((l3.length : Int) - 1)) = -1 := by
    have := lastIndexOf_absent_before l3 (l2 ++ dot :: l1) dot h3 hne
      ((l3.length : Int) - 1) rfl
    simpa using this
  have hl1 : (((l3 ++ dot :: l2).length : Int) = -1) = False := by
    simp only [eq_iff_iff, iff_false]
    omega
  have hl2 : ((l3.length : Int) = -1) = False := by
    simp only [eq_iff_iff, iff_false]
    omega
  unfold host2Domain
  simp only [hip, hLast, h2nd, hpart, h3rd, ht, hl1, hl2]
  simp

/-- With exactly two dots, the first of them at index 0, and a label that reads truthy in
`topLevel`, the leading dot is dropped. -/
theorem host2Domain_three_labels_leading_dot (tbl : List JSString) (l2 l1 : JSString)
    (h2 : dot ∉ l2) (h1 : dot ∉ l1) (ht : truthyProp tbl l2 = true) :
    host2Domain tbl (dot :: l2 ++ dot :: l1) = l2 ++ dot :: l1 := by
  have hip : hostIsIP (dot :: l2 ++ dot :: l1) = (false, false) :=
    hostIsIP_of_length_ne _ (by
      rw [show dot :: l2 ++ dot :: l1 = [] ++ dot :: (l2 ++ dot :: l1) from rfl,
        split_append_dot [] _ (by simp), split_append_dot l2 l1 h2, split_dot_free l1 h1]
      simp)
  have hLast : lastIndexOf (dot :: l2 ++ dot :: l1) dot none
      = ((dot :: l2).length : Int) := lastIndexOf_last (dot :: l2) l1 dot h1
  have h2nd : lastIndexOf (dot :: l2 ++ dot :: l1) dot
      (some (((dot :: l2).length : Int) - 1)) = 0 := by
    have := lastIndexOf_before [] l2 l1 dot h2 (((dot :: l2).length : Int) - 1)
      (by simp only [List.length_cons, List.length_nil]; omega)
    simpa using this
  have hpart : substring (dot :: l2 ++ dot :: l1) (0 + 1)
      (some ((dot :: l2).length : Int)) = l2 := by
    have := substring_between [dot] l2 (dot :: l1) (0 + 1)
      ((dot :: l2).length : Int) (by simp only [List.length_append, List.length_cons, List.length_nil]; omega)
      (by simp only [List.length_append, List.length_cons, List.length_nil]; omega)
    simpa using this
  have h3rd : lastIndexOf (dot :: l2 ++ dot :: l1) dot (some (0 - 1)) = 0 :=
    lastIndexOf_neg_at_head _ dot _ (by omega)
  have hres : substring (dot :: l2 ++ dot :: l1) (0 + 1) none = l2 ++ dot :: l1 := by
    have := substring_from [dot] (l2 ++ dot :: l1) (0 + 1) (by simp)
    simpa using this
  have hl1 : ((((dot :: l2).length : Nat) : Int) = -1) = False := by
    simp only [eq_iff_iff, iff_false]
    omega
  unfold host2Domain
  simp only [hip, hLast, h2nd, hpart, h3rd, hres, ht, hl1]
  simp

/-! ## Dotted decimals -/

set_option maxRecDepth 100000 in
theorem decimal_octet_facts : ∀ n, n < 256 →
    dot ∉ decimal n ∧ partIsOctet (decimal n) = true ∧ Number (decimal n) = some (n : Int)
      ∧ (decimal n = utf16 "127" ↔ n = 127) ∧ (decimal n = utf16 "10" ↔ n = 10)
      ∧ (decimal n = utf16 "192" ↔ n = 192) ∧ (decimal n = utf16 "168" ↔ n = 168)
      ∧ (decimal n = utf16 "172" ↔ n = 172) := by
  decide

theorem split_dotted (a b c d : Nat) (ha : a < 256) (hb : b < 256) (hc : c < 256)
    (hd : d < 256) : split (dotted a b c d) = [decimal a, decimal b, decimal c, decimal d] := by
  have fa := (decimal_octet_facts a ha).1
  have fb := (decimal_octet_facts b hb).1
  have fc := (decimal_octet_facts c hc).1
  have fd := (decimal_octet_facts d hd).1
  unfold dotted
  simp only [List.append_assoc, List.cons_append]
  rw [split_append_dot _ _ fa, split_append_dot _ _ fb, split_append_dot _ _ fc,
    split_dot_free _ fd]

/-- On a host of four plain decimal octets `hostIsIP` answers `[true, p]`, where `p` tells
whether the octets lie in a private range. -/
theorem hostIsIP_dotted (a b c d : Nat) (ha : a < 256) (hb : b < 256) (hc : c < 256)
    (hd : d < 256) : hostIsIP (dotted a b c d) = (true, decide (isPrivateRange a b)) := by
  obtain ⟨-, oa, -, a127, a10, a192, -, a172⟩ := decimal_octet_facts a ha
  obtain ⟨-, ob, nb, -, -, -, b168, -⟩ := decimal_octet_facts b hb
  obtain ⟨-, oc, -⟩ := decimal_octet_facts c hc
  obtain ⟨-, od, -⟩ := decimal_octet_facts d hd
  unfold hostIsIP
  simp only [split_dotted a b c d ha hb hc hd]
  simp only [List.length_cons, List.length_nil, List.all_cons, List.all_nil, List.getD_cons_zero,
    List.getD_cons_succ, oa, ob, oc, od, nb, a127, a10, a192, b168, a172, isPrivateRange]
  by_cases h1 : a = 127
  · simp [h1]
  by_cases h2 : a = 10
  · simp [h2]
  by_cases h3 : a = 192 ∧ b = 168
  · simp [h3]
  by_cases h4 : a = 172
  · by_cases h5 : 16 ≤ b ∧ b ≤ 31
    · simp [h4, h5]
    · have h6 : ¬ (16 ≤ (b : Int) ∧ (b : Int) ≤ 31) := by omega
      simp [h4, h5, h6]
  · simp [h1, h2, h3, h4]

theorem truthyProp_of_mem (own : List JSString) (key : JSString) (h : key ∈ own) :
    truthyProp own key = true := by
  simp [truthyProp, h]

theorem truthyProp_of_inherited (own : List JSString) (key : JSString)
    (h : key ∈ objectPrototypeKeys) : truthyProp own key = true := by
  simp [truthyProp, h]

theorem truthyProp_eq_false (own : List JSString) (key : JSString) (h : key ∉ own)
    (hp : key ∉ objectPrototypeKeys) : truthyProp own key = false := by
  simp [truthyProp, h, hp]

/-! ## The claims -/

/-- C1: a host `a.b.c.d` of plain decimal octets in `[0,255]` that lies in a private range
(first octet 10 or 127, first two octets 192.168, or first octet 172 and second octet in
16..31) is reduced by `host2Domain` to the empty string, for every top-level-domain table. -/
theorem host2Domain_private_ipv4 (topLevel : List JSString) (a b c d : Nat)
    (ha : a ≤ 255) (hb : b ≤ 255) (hc : c ≤ 255) (hd : d ≤ 255)
    (hp : a = 10 ∨ a = 127 ∨ (a = 192 ∧ b = 168) ∨ (a = 172 ∧ 16 ≤ b ∧ b ≤ 31)) :
    host2Domain topLevel (dotted a b c d) = [] := by
  have hip := hostIsIP_dotted a b c d (by omega) (by omega) (by omega) (by omega)
  have hdec : decide (isPrivateRange a b) = true := decide_eq_true hp
  unfold host2Domain
  simp [hip, hdec]

/-- C1 at the host `10.0.0.5`. -/
theorem host2Domain_private_ipv4_witness :
    dotted 10 0 0 5 = utf16 "10.0.0.5" ∧ host2Domain [] (dotted 10 0 0 5) = [] :=
  ⟨by decide, host2Domain_private_ipv4 [] 10 0 0 5 (by decide) (by decide) (by decide)
    (by decide) (Or.inl rfl)⟩

/-- C2: a host `a.b.c.d` of plain decimal octets in `[0,255]` that lies in none of the
private ranges is returned by `host2Domain` unchanged, for every top-level-domain table. -/
theorem host2Domain_public_ipv4 (topLevel : List JSString) (a b c d : Nat)
    (ha : a ≤ 255) (hb : b ≤ 255) (hc : c ≤ 255) (hd : d ≤ 255)
    (hp : ¬ (a = 10 ∨ a = 127 ∨ (a = 192 ∧ b = 168) ∨ (a = 172 ∧ 16 ≤ b ∧ b ≤ 31))) :
    host2Domain topLevel (dotted a b c d) = dotted a b c d := by
  have hip := hostIsIP_dotted a b c d (by omega) (by omega) (by omega) (by omega)
  have hdec : decide (isPrivateRange a b) = false := decide_eq_false hp
  unfold host2Domain
  simp [hip, hdec]

/-- C2 at the host `172.32.0.1`, just above the private range 172.16/12. -/
theorem host2Domain_public_ipv4_witness :
    dotted 172 32 0 1 = utf16 "172.32.0.1"
      ∧ host2Domain [] (dotted 172 32 0 1) = dotted 172 32 0 1 :=
  ⟨by decide, host2Domain_public_ipv4 [] 172 32 0 1 (by decide) (by decide) (by decide)
    (by decide) (by decide)⟩

/-- C8: a host that contains no dot is reduced by `host2Domain` to the empty string. -/
theorem host2Domain_no_dot (topLevel : List JSString) (host : JSString) (h : dot ∉ host) :
    host2Domain topLevel host = [] :=
  host2Domain_dot_free topLevel host h

/-- C8 at the host `localhost`. -/
theorem host2Domain_no_dot_witness :
    dot ∉ utf16 "localhost" ∧ host2Domain [] (utf16 "localhost") = [] :=
  ⟨by decide, host2Domain_no_dot [] (utf16 "localhost") (by decide)⟩

/-- C3: the label `constructor` is in no table, yet `topLevel["constructor"]` reads the
function inherited from `Object.prototype`, which is truthy: `www.constructor.com` is
returned whole for every table, not reduced to its last two labels `constructor.com`. -/
theorem host2Domain_inherited_label :
    (∀ topLevel : List JSString,
        host2Domain topLevel (utf16 "www.constructor.com") = utf16 "www.constructor.com")
      ∧ utf16 "www.constructor.com" ≠ utf16 "constructor.com" := by
  refine ⟨fun topLevel => ?_, by decide⟩
  have h := host2Domain_three_labels_whole topLevel (utf16 "www") (utf16 "constructor")
    (utf16 "com") (by decide) (by decide) (by decide) (by decide)
    (truthyProp_of_inherited topLevel _ (by decide))
  have e : utf16 "www.constructor.com"
      = utf16 "www" ++ dot :: utf16 "constructor" ++ dot :: utf16 "com" := by decide
  rw [e]
  exact h

/-- C4: the host `.co.uk` has two dots and no third-to-last dot, yet it is not returned
whole: `lastIndexOf(".", -1)` finds the dot at index 0 again and the result is `co.uk`,
for every table (with or without the label `co`). -/
theorem host2Domain_leading_dot_suffix :
    (∀ topLevel : List JSString, host2Domain topLevel (utf16 ".co.uk") = utf16 "co.uk")
      ∧ utf16 ".co.uk" ≠ utf16 "co.uk" := by
  refine ⟨fun topLevel => ?_, by decide⟩
  have e : utf16 ".co.uk" = dot :: utf16 "co" ++ dot :: utf16 "uk" := by decide
  have r : utf16 "co.uk" = utf16 "co" ++ dot :: utf16 "uk" := by decide
  rw [e, r]
  cases ht : truthyProp topLevel (utf16 "co") with
  | true =>
    exact host2Domain_three_labels_leading_dot topLevel (utf16 "co") (utf16 "uk")
      (by decide) (by decide) ht
  | false =>
    exact host2Domain_two_labels topLevel [] (utf16 "co") (utf16 "uk") (by decide) (by decide)
      (by decide) ht

/-- C5, as stated, fails: with the table holding only the entry `co.uk` the host
`www.example.co.uk` is reduced to `co.uk`, because the label looked up is `co`. -/
theorem host2Domain_co_uk_entry_counterexample :
    utf16 "co.uk" ∈ [utf16 "co.uk"]
      ∧ host2Domain [utf16 "co.uk"] (utf16 "www.example.co.uk") = utf16 "co.uk"
      ∧ host2Domain [utf16 "co.uk"] (utf16 "www.example.co.uk") ≠ utf16 "example.co.uk" := by
  decide

/-- C5, amended: for every table that contains the label `co`,
`host2Domain("www.example.co.uk")` is `example.co.uk`. -/
theorem host2Domain_co_label (topLevel : List JSString) (h : utf16 "co" ∈ topLevel) :
    host2Domain topLevel (utf16 "www.example.co.uk") = utf16 "example.co.uk" := by
  have e : utf16 "www.example.co.uk"
      = utf16 "www" ++ dot :: utf16 "example" ++ dot :: utf16 "co" ++ dot :: utf16 "uk" := by
    decide
  have r : utf16 "example.co.uk" = utf16 "example" ++ dot :: utf16 "co" ++ dot :: utf16 "uk" := by
    decide
  rw [e, r]
  exact host2Domain_three_labels topLevel (utf16 "www") (utf16 "example") (utf16 "co")
    (utf16 "uk") (by decide) (by decide) (by decide) (by decide)
    (truthyProp_of_mem topLevel _ h)

/-- C5, amended, at the table holding `co` and `com`. -/
theorem host2Domain_co_label_witness :
    utf16 "co" ∈ [utf16 "co", utf16 "com"]
      ∧ host2Domain [utf16 "co", utf16 "com"] (utf16 "www.example.co.uk")
        = utf16 "example.co.uk" :=
  ⟨by decide, host2Domain_co_label [utf16 "co", utf16 "com"] (by decide)⟩

/-- C6: reduction is not idempotent on `a..com` (empty table): the first application gives
`.com`, the second gives `com`. -/
theorem host2Domain_not_idempotent :
    host2Domain [] (utf16 "a..com") = utf16 ".com"
      ∧ host2Domain [] (host2Domain [] (utf16 "a..com")) = utf16 "com"
      ∧ host2Domain [] (host2Domain [] (utf16 "a..com")) ≠ host2Domain [] (utf16 "a..com") := by
  decide

/-- C7: the host `.com` has exactly one dot, yet it is not returned whole:
`lastIndexOf(".", -1)` finds the dot at index 0 again and the result is `com`, for every
table. -/
theorem host2Domain_leading_dot_only :
    (∀ topLevel : List JSString, host2Domain topLevel (utf16 ".com") = utf16 "com")
      ∧ utf16 ".com" ≠ utf16 "com" := by
  refine ⟨fun topLevel => ?_, by decide⟩
  have e : utf16 ".com" = dot :: utf16 "com" := by decide
  rw [e]
  exact host2Domain_leading_dot topLevel (utf16 "com") (by decide)

/-! ## The parts `hostIsIP` accepts -/

theorem split_cons_inv (s : JSString) : ∀ (p : JSString) (rest : List JSString),
    split s = p :: rest →
      dot ∉ p ∧ ((rest = [] ∧ s = p) ∨ ∃ t, s = p ++ dot :: t ∧ split t = rest) := by
  induction s with
  | nil =>
    intro p rest h
    simp only [split, List.cons.injEq] at h
    obtain ⟨rfl, rfl⟩ := h
    simp
  | cons c cs ih =>
    intro p rest h
    unfold split at h
    by_cases hc : c = dot
    · simp only [hc, if_true, List.cons.injEq] at h
      obtain ⟨rfl, rfl⟩ := h
      exact ⟨by simp, Or.inr ⟨cs, by simp [hc], rfl⟩⟩
    · simp only [hc, if_false] at h
      cases hs : split cs with
      | nil => exact absurd hs (split_ne_nil cs)
      | cons q qs =>
        rw [hs] at h
        simp only [List.cons.injEq] at h
        obtain ⟨rfl, rfl⟩ := h
        obtain ⟨hq, hrest⟩ := ih q qs hs
        refine ⟨?_, ?_⟩
        · intro hm
          rcases List.mem_cons.mp hm with e | e
          · exact hc e.symm
          · exact hq e
        · rcases hrest with ⟨h1, h2⟩ | ⟨t, h1, h2⟩
          · exact Or.inl ⟨h1, by rw [h2]⟩
          · exact Or.inr ⟨t, by rw [h1]; rfl, h2⟩

/-- The array `split host` has exactly four elements precisely when `host` is four dot-free
pieces joined by three dots. -/
theorem split_eq_four (host p0 p1 p2 p3 : JSString) :
    split host = [p0, p1, p2, p3] ↔
      host = p0 ++ dot :: p1 ++ dot :: p2 ++ dot :: p3
        ∧ dot ∉ p0 ∧ dot ∉ p1 ∧ dot ∉ p2 ∧ dot ∉ p3 := by
  constructor
  · intro h
    obtain ⟨d0, h0⟩ := split_cons_inv host p0 _ h
    rcases h0 with ⟨e, -⟩ | ⟨t0, e0, s0⟩
    · exact absurd e (by simp)
    obtain ⟨d1, h1⟩ := split_cons_inv t0 p1 _ s0
    rcases h1 with ⟨e, -⟩ | ⟨t1, e1, s1⟩
    · exact absurd e (by simp)
    obtain ⟨d2, h2⟩ := split_cons_inv t1 p2 _ s1
    rcases h2 with ⟨e, -⟩ | ⟨t2, e2, s2⟩
    · exact absurd e (by simp)
    obtain ⟨d3, h3⟩ := split_cons_inv t2 p3 _ s2
    rcases h3 with ⟨-, e3⟩ | ⟨t3, -, s3⟩
    · refine ⟨?_, d0, d1, d2, d3⟩
      rw [e0, e1, e2, e3]
      simp
    · exact absurd s3 (split_ne_nil t3)
  · rintro ⟨rfl, d0, d1, d2, d3⟩
    simp only [List.append_assoc, List.cons_append]
    rw [split_append_dot _ _ d0, split_append_dot _ _ d1, split_append_dot _ _ d2,
      split_dot_free _ d3]

theorem partIsOctet_iff (p : JSString) :
    partIsOctet p = true ↔
      1 ≤ p.length ∧ p.length ≤ 3 ∧ ∃ n : Int, Number p = some n ∧ 0 ≤ n ∧ n ≤ 255 := by
  unfold partIsOctet
  by_cases hl : p.length = 0 ∨ p.length > 3
  · simp only [hl, if_true]
    constructor
    · intro h
      exact absurd h (by simp)
    · rintro ⟨h1, h2, -⟩
      omega
  · simp only [hl, if_false]
    cases hn : Number p with
    | none => simp
    | some n =>
      by_cases hr : n < 0 ∨ n > 255
      · simp only [hr, if_true]
        constructor
        · intro h
          exact absurd h (by simp)
        · rintro ⟨-, -, m, hm, h3, h4⟩
          obtain rfl : n = m := Option.some.inj hm
          omega
      · simp only [hr, if_false, true_iff]
        exact ⟨by omega, by omega, n, rfl, by omega, by omega⟩

theorem hostIsIP_fst_iff (host : JSString) :
    (hostIsIP host).1 = true ↔
      ∃ p0 p1 p2 p3, split host = [p0, p1, p2, p3] ∧ partIsOctet p0 = true
        ∧ partIsOctet p1 = true ∧ partIsOctet p2 = true ∧ partIsOctet p3 = true := by
  unfold hostIsIP
  simp only
  constructor
  · intro h
    have h4 : (split host).length = 4 := by
      by_contra hne
      simp [hne] at h
    have h2 : ([3, 2, 1, 0].all fun i => partIsOctet ((split host).getD i [])) = true := by
      by_contra hne
      simp only [h4, ne_eq, not_true_eq_false, if_false, hne, not_false_eq_true, if_true] at h
      exact absurd h (by simp)
    match hs : split host, h4 with
    | [p0, p1, p2, p3], _ =>
      refine ⟨p0, p1, p2, p3, rfl, ?_⟩
      rw [hs] at h2
      simpa [and_comm, and_left_comm, and_assoc] using h2
  · rintro ⟨p0, p1, p2, p3, hs, o0, o1, o2, o3⟩
    rw [hs]
    simp only [List.length_cons, List.length_nil, List.all_cons, List.all_nil,
      List.getD_cons_zero, List.getD_cons_succ, o0, o1, o2, o3]
    split_ifs <;> simp_all

set_option maxRecDepth 100000 in
theorem digits_partIsOctet : ∀ x, x < 10 → ∀ y, y < 10 → ∀ z, z < 10 →
    partIsOctet [48 + x] = true ∧ partIsOctet [48 + x, 48 + y] = true
      ∧ (decimalValue [48 + x, 48 + y, 48 + z] ≤ 255
          → partIsOctet [48 + x, 48 + y, 48 + z] = true) := by
  decide

/-- Every decimal octet is dot-free and passes the check of the loop in `hostIsIP`. -/
theorem isDecimalOctet_accepted (p : JSString) (h : isDecimalOctet p = true) :
    dot ∉ p ∧ partIsOctet p = true := by
  simp only [isDecimalOctet, Bool.and_eq_true, decide_eq_true_eq, List.all_eq_true] at h
  obtain ⟨⟨⟨h1, h2⟩, h3⟩, h4⟩ := h
  refine ⟨fun hm => ?_, ?_⟩
  · have := h3 dot hm
    simp [dot] at this
  · match p, h1, h2, h3, h4 with
    | [c1], _, _, h3, _ =>
      have b1 := h3 c1 (by simp)
      have := (digits_partIsOctet (c1 - 48) (by omega) 0 (by omega) 0 (by omega)).1
      rwa [show 48 + (c1 - 48) = c1 by omega] at this
    | [c1, c2], _, _, h3, _ =>
      have b1 := h3 c1 (by simp)
      have b2 := h3 c2 (by simp)
      have := (digits_partIsOctet (c1 - 48) (by omega) (c2 - 48) (by omega) 0 (by omega)).2.1
      rwa [show 48 + (c1 - 48) = c1 by omega, show 48 + (c2 - 48) = c2 by omega] at this
    | [c1, c2, c3], _, _, h3, h4 =>
      have b1 := h3 c1 (by simp)
      have b2 := h3 c2 (by simp)
      have b3 := h3 c3 (by simp)
      have := (digits_partIsOctet (c1 - 48) (by omega) (c2 - 48) (by omega) (c3 - 48)
        (by omega)).2.2
      rw [show 48 + (c1 - 48) = c1 by omega, show 48 + (c2 - 48) = c2 by omega,
        show 48 + (c3 - 48) = c3 by omega] at this
      exact this h4

/-- C9, as stated, fails: the part `0x1` is not a decimal octet, yet `Number("0x1")` is `1`,
so `0x1.2.3.4` is reported as a public IP and returned whole instead of being reduced as a
host name. -/
theorem hostIsIP_hex_part_counterexample :
    split (utf16 "0x1.2.3.4") = [utf16 "0x1", utf16 "2", utf16 "3", utf16 "4"]
      ∧ isDecimalOctet (utf16 "0x1") = false
      ∧ hostIsIP (utf16 "0x1.2.3.4") = (true, false)
      ∧ host2Domain [] (utf16 "0x1.2.3.4") = utf16 "0x1.2.3.4" := by
  decide

/-- C9, amended: `hostIsIP` reports `isIP = true` exactly for the hosts made of four
dot-separated parts, each of one to three code units that `Number` converts to a value in
`[0,255]`; every decimal octet is such a part.  Every other host yields `[false, false]` and
is reduced as a host name: `1.2.3` to `2.3` and `1.2.3.256` to `3.256`, when the label `2`,
respectively `3`, is not a key of the table. -/
theorem hostIsIP_accepts_number_octets :
    (∀ host : JSString, (hostIsIP host).1 = true ↔
        ∃ p0 p1 p2 p3, host = p0 ++ dot :: p1 ++ dot :: p2 ++ dot :: p3
          ∧ ∀ p ∈ [p0, p1, p2, p3], dot ∉ p ∧ 1 ≤ p.length ∧ p.length ≤ 3
              ∧ ∃ n : Int, Number p = some n ∧ 0 ≤ n ∧ n ≤ 255)
      ∧ (∀ p0 p1 p2 p3 : JSString, (∀ p ∈ [p0, p1, p2, p3], isDecimalOctet p = true) →
          (hostIsIP (p0 ++ dot :: p1 ++ dot :: p2 ++ dot :: p3)).1 = true)
      ∧ (∀ host : JSString, (hostIsIP host).1 = false → hostIsIP host = (false, false))
      ∧ (∀ topLevel : List JSString, utf16 "2" ∉ topLevel →
          host2Domain topLevel (utf16 "1.2.3") = utf16 "2.3")
      ∧ (∀ topLevel : List JSString, utf16 "3" ∉ topLevel →
          host2Domain topLevel (utf16 "1.2.3.256") = utf16 "3.256") := by
  refine ⟨fun host => ?_, fun p0 p1 p2 p3 h => ?_, fun host h => ?_, fun topLevel h => ?_,
    fun topLevel h => ?_⟩
  · rw [hostIsIP_fst_iff]
    constructor
    · rintro ⟨p0, p1, p2, p3, hs, o0, o1, o2, o3⟩
      obtain ⟨e, d0, d1, d2, d3⟩ := (split_eq_four host p0 p1 p2 p3).mp hs
      refine ⟨p0, p1, p2, p3, e, ?_⟩
      intro p hp
      simp only [List.mem_cons, List.mem_singleton, List.not_mem_nil, or_false] at hp
      rcases hp with rfl | rfl | rfl | rfl
      · exact ⟨d0, (partIsOctet_iff _).mp o0⟩
      · exact ⟨d1, (partIsOctet_iff _).mp o1⟩
      · exact ⟨d2, (partIsOctet_iff _).mp o2⟩
      · exact ⟨d3, (partIsOctet_iff _).mp o3⟩
    · rintro ⟨p0, p1, p2, p3, e, hp⟩
      have q0 := hp p0 (by simp)
      have q1 := hp p1 (by simp)
      have q2 := hp p2 (by simp)
      have q3 := hp p3 (by simp)
      exact ⟨p0, p1, p2, p3, (split_eq_four host p0 p1 p2 p3).mpr ⟨e, q0.1, q1.1, q2.1, q3.1⟩,
        (partIsOctet_iff _).mpr q0.2, (partIsOctet_iff _).mpr q1.2,
        (partIsOctet_iff _).mpr q2.2, (partIsOctet_iff _).mpr q3.2⟩
  · have q0 := isDecimalOctet_accepted p0 (h p0 (by simp))
    have q1 := isDecimalOctet_accepted p1 (h p1 (by simp))
    have q2 := isDecimalOctet_accepted p2 (h p2 (by simp))
    have q3 := isDecimalOctet_accepted p3 (h p3 (by simp))
    rw [hostIsIP_fst_iff]
    exact ⟨p0, p1, p2, p3, (split_eq_four _ p0 p1 p2 p3).mpr ⟨rfl, q0.1, q1.1, q2.1, q3.1⟩,
      q0.2, q1.2, q2.2, q3.2⟩
  · exact Prod.ext h (hostIsIP_snd_false host h)
  · have e : utf16 "1.2.3" = utf16 "1" ++ dot :: utf16 "2" ++ dot :: utf16 "3" := by decide
    have r : utf16 "2.3" = utf16 "2" ++ dot :: utf16 "3" := by decide
    rw [e, r]
    exact host2Domain_two_labels topLevel (utf16 "1") (utf16 "2") (utf16 "3") (by decide)
      (by decide) (by decide) (truthyProp_eq_false topLevel _ h (by decide))
  · have e : utf16 "1.2.3.256" = utf16 "1.2" ++ dot :: utf16 "3" ++ dot :: utf16 "256" := by
      decide
    have r : utf16 "3.256" = utf16 "3" ++ dot :: utf16 "256" := by decide
    rw [e, r]
    exact host2Domain_two_labels topLevel (utf16 "1.2") (utf16 "3") (utf16 "256") (by decide)
      (by decide) (by decide) (truthyProp_eq_false topLevel _ h (by decide))

/-! ## The tests of `FindProxyForURL` -/

theorem indexOfFrom_short (search : JSString) :
    ∀ (t : JSString) (k : Nat), t.length < search.length → indexOfFrom search t k = -1 := by
  intro t
  induction t with
  | nil =>
    intro k h
    have hne : search ≠ [] := fun e => by simp [e] at h
    cases search with
    | nil => exact absurd rfl hne
    | cons c cs => simp [indexOfFrom, List.isPrefixOf]
  | cons c cs ih =>
    intro k h
    have hp : search.isPrefixOf (c :: cs) = false := by
      cases hb : search.isPrefixOf (c :: cs) with
      | false => rfl
      | true =>
        exfalso
        have hle := (List.isPrefixOf_iff_prefix.mp hb).length_le
        exact absurd hle (Nat.not_le.mpr h)
    simp only [indexOfFrom, hp]
    exact ih (k + 1) (by simp only [List.length_cons] at h; omega)

theorem indexOfFrom_same_length (search t : JSString) (k : Nat)
    (h : t.length = search.length) :
    indexOfFrom search t k ≠ -1 ↔ search = t := by
  cases t with
  | nil =>
    have : search = [] := List.length_eq_zero.mp (by simpa using h.symm)
    subst this
    simp only [indexOfFrom, List.isPrefixOf, if_true, iff_true]
    omega
  | cons c cs =>
    by_cases hp : search.isPrefixOf (c :: cs) = true
    · have e := (List.isPrefixOf_iff_prefix.mp hp).eq_of_length h.symm
      subst e
      refine ⟨fun _ => rfl, fun _ => ?_⟩
      simp only [indexOfFrom, hp, if_true]
      omega
    · have hne : search ≠ c :: cs := fun e => hp (by rw [e]; simp)
      have hs := indexOfFrom_short search cs (k + 1) (by simp only [List.length_cons] at h; omega)
      simp [indexOfFrom, hp, hs, hne]

/-- The test `host.indexOf(".local", host.length - 6) !== -1` holds exactly when the host
ends with `.local`, also for a host shorter than six code units. -/
theorem indexOf_local_iff (host : JSString) :
    indexOf host (utf16 ".local") ((host.length : Int) - 6) ≠ -1
      ↔ utf16 ".local" <:+ host := by
  have hl : (utf16 ".local").length = 6 := by decide
  unfold indexOf
  rw [List.suffix_iff_eq_drop, hl]
  by_cases h6 : host.length < 6
  · have hs : (min (max ((host.length : Int) - 6) 0) (host.length : Int)).toNat = 0 := by omega
    simp only [hs, List.drop_zero]
    have h1 := indexOfFrom_short (utf16 ".local") host 0 (by omega)
    have h2 : host.length - 6 = 0 := by omega
    simp only [h1, h2, List.drop_zero, ne_eq, not_true_eq_false, false_iff]
    intro e
    rw [← e] at h6
    omega
  · have hs : (min (max ((host.length : Int) - 6) 0) (host.length : Int)).toNat
        = host.length - 6 := by omega
    simp only [hs]
    exact indexOfFrom_same_length _ _ _ (by rw [List.length_drop]; omega)

theorem substring_head (pre t : JSString) (r : Int) (hr : r = (pre.length : Int)) :
    substring (pre ++ t) 0 (some r) = pre := by
  have := substring_between [] pre t 0 r (by simp) (by simp [hr])
  simpa using this

/-- C10: in the full script, a url that begins with `ftp:`, a host that begins with
`::ffff:` or a host that ends with `.local` gets `DIRECT`, for every proxy address, direct
list and table; and the `.local` test of the script holds exactly when the host ends with
`.local`. -/
theorem findProxyForURL_direct_rules :
    (∀ host : JSString, indexOf host (utf16 ".local") ((host.length : Int) - 6) ≠ -1
        ↔ utf16 ".local" <:+ host)
      ∧ (∀ (proxyAddr : JSString) (directDomains topLevel : List JSString)
          (url host : JSString),
          (utf16 "ftp:" <+: url ∨ utf16 "::ffff:" <+: host ∨ utf16 ".local" <:+ host) →
            FindProxyForURL proxyAddr directDomains topLevel url host = utf16 "DIRECT") := by
  refine ⟨indexOf_local_iff, ?_⟩
  intro proxyAddr directDomains topLevel url host h
  unfold FindProxyForURL
  rcases h with ⟨t, rfl⟩ | ⟨t, rfl⟩ | h
  · rw [substring_head (utf16 "ftp:") t 4 (by decide)]
    simp [direct]
  · rw [substring_head (utf16 "::ffff:") t 7 (by decide)]
    simp [direct]
  · have := (indexOf_local_iff host).mpr h
    simp only [this, ne_eq, not_false_eq_true, if_true]
    simp [direct]

/-- C10 at the host `svc.local` with an empty direct list. -/
theorem findProxyForURL_direct_rules_witness :
    utf16 ".local" <:+ utf16 "svc.local"
      ∧ FindProxyForURL (utf16 "127.0.0.1:1080") [] [] (utf16 "http://svc.local/")
          (utf16 "svc.local") = utf16 "DIRECT" :=
  ⟨by decide, findProxyForURL_direct_rules.2 (utf16 "127.0.0.1:1080") [] []
    (utf16 "http://svc.local/") (utf16 "svc.local") (Or.inr (Or.inr (by decide)))⟩

/-! ## The result of `host2Domain` is a suffix of the host -/

theorem lastIndexFrom_spec (s : JSString) (c : Nat) (k : Nat) :
    lastIndexFrom s c k = -1 ∨ ∃ i : Nat, lastIndexFrom s c k = (i : Int) ∧ s[i]? = some c := by
  induction k with
  | zero =>
    unfold lastIndexFrom
    by_cases h : s[0]? = some c
    · exact Or.inr ⟨0, by simp [h], h⟩
    · exact Or.inl (by simp [h])
  | succ k ih =>
    unfold lastIndexFrom
    by_cases h : s[k + 1]? = some c
    · exact Or.inr ⟨k + 1, by simp [h], h⟩
    · simpa [h] using ih

theorem lastIndexOf_spec (s : JSString) (c : Nat) (pos : Option Int) :
    lastIndexOf s c pos = -1 ∨ ∃ i : Nat, lastIndexOf s c pos = (i : Int) ∧ s[i]? = some c := by
  unfold lastIndexOf
  split_ifs
  · exact Or.inl rfl
  · exact lastIndexFrom_spec s c _

theorem substring_to_end (s : JSString) (q : Int) : substring s q none = s.drop q.toNat := by
  unfold substring
  simp only
  have h1 : (min (min (max q 0) (s.length : Int)) (min (max (s.length : Int) 0) (s.length : Int))).toNat
      = min q.toNat s.length := by omega
  have h2 : (max (min (max q 0) (s.length : Int)) (min (max (s.length : Int) 0) (s.length : Int))
      - min (min (max q 0) (s.length : Int)) (min (max (s.length : Int) 0) (s.length : Int))).toNat
      = s.length - min q.toNat s.length := by omega
  rw [h1, h2]
  have h3 : List.drop (min q.toNat s.length) s = List.drop q.toNat s := by
    rcases Nat.le_total q.toNat s.length with h | h
    · rw [Nat.min_eq_left h]
    · rw [Nat.min_eq_right h, List.drop_of_length_le h, List.drop_of_length_le (le_refl _)]
  rw [List.take_of_length_le (by rw [List.length_drop]), h3]

theorem drop_succ_of_getElem? (s : JSString) (c : Nat) (i : Nat) (h : s[i]? = some c) :
    s = s.take i ++ c :: s.drop (i + 1) := by
  obtain ⟨hi, hc⟩ := List.getElem?_eq_some.mp h
  have := List.drop_eq_getElem_cons hi
  rw [hc] at this
  rw [← this, List.take_append_drop]

/-- The three shapes of a result of `host2Domain`: empty, the host, or what follows one of
the dots of the host. -/
theorem host2Domain_cases (tbl : List JSString) (host : JSString) :
    host2Domain tbl host = [] ∨ host2Domain tbl host = host
      ∨ ∃ pre, host = pre ++ dot :: host2Domain tbl host := by
  have key : ∀ (pos : Option Int), lastIndexOf host dot pos ≠ -1 →
      ∃ pre, host = pre ++ dot :: substring host (lastIndexOf host dot pos + 1) none := by
    intro pos hne
    rcases lastIndexOf_spec host dot pos with h | ⟨i, hi, hc⟩
    · exact absurd h hne
    · refine ⟨host.take i, ?_⟩
      rw [hi, substring_to_end]
      have : ((i : Int) + 1).toNat = i + 1 := by omega
      rw [this]
      exact drop_succ_of_getElem? host dot i hc
  unfold host2Domain
  simp only
  split_ifs with h1 h2 h3 h4 h5 h6
  · exact Or.inl rfl
  · exact Or.inr (Or.inl rfl)
  · exact Or.inl rfl
  · exact Or.inr (Or.inl rfl)
  · exact Or.inr (Or.inl rfl)
  · exact Or.inr (Or.inr (key _ h6))
  · exact Or.inr (Or.inr (key _ h4))

theorem host2Domain_suffix (tbl : List JSString) (host : JSString) :
    host2Domain tbl host <:+ host := by
  rcases host2Domain_cases tbl host with h | h | ⟨pre, h⟩
  · rw [h]
    exact List.nil_suffix
  · rw [h]
  · exact ⟨pre ++ [dot], by rw [List.append_assoc]; exact h.symm⟩

theorem host2Domain_eq_of_length (tbl : List JSString) (host : JSString)
    (h : host.length = (host2Domain tbl host).length) : host2Domain tbl host = host :=
  (host2Domain_suffix tbl host).eq_of_length h.symm

/-! ## The list lookup of `FindProxyForURL` -/

theorem substring_take (s : JSString) (n : Nat) (q : Int) (hq : q = (n : Int)) :
    substring s 0 (some q) = s.take n := by
  subst hq
  unfold substring
  simp only
  have h1 : (min (min (max (0 : Int) 0) (s.length : Int))
      (min (max (n : Int) 0) (s.length : Int))).toNat = 0 := by omega
  have h2 : (max (min (max (0 : Int) 0) (s.length : Int)) (min (max (n : Int) 0) (s.length : Int))
      - min (min (max (0 : Int) 0) (s.length : Int))
        (min (max (n : Int) 0) (s.length : Int))).toNat = min n s.length := by omega
  rw [h1, h2, List.drop_zero]
  rcases Nat.le_total n s.length with h | h
  · rw [Nat.min_eq_left h]
  · rw [Nat.min_eq_right h, List.take_of_length_le h, List.take_of_length_le (le_refl _)]

theorem substring_ne_of_not_prefix (s lit : JSString) (q : Int) (hq : q = (lit.length : Int))
    (h : ¬ lit <+: s) : substring s 0 (some q) ≠ lit := by
  rw [substring_take s lit.length q hq]
  intro e
  exact h (List.prefix_iff_eq_take.mpr e.symm)

theorem truthyProp_directList (L : List JSString) (key : JSString)
    (hk : key ∉ objectPrototypeKeys) :
    truthyProp (directList L) key = decide (key = [] ∨ key ∈ L) := by
  simp [truthyProp, directList, hk]

theorem direct_ne_httpProxy (proxyAddr : JSString) :
    utf16 "DIRECT" ≠ utf16 "PROXY " ++ proxyAddr ++ utf16 "; DIRECT" := by
  have e1 : utf16 "DIRECT" = 68 :: utf16 "IRECT" := by decide
  have e2 : utf16 "PROXY " = 80 :: utf16 "ROXY " := by decide
  rw [e1, e2]
  intro h
  simp at h

/-- The script past its three early rules: the decision is read from `directAcc`. -/
theorem findProxyForURL_past_rules (proxyAddr : JSString) (L tbl : List JSString)
    (url host : JSString) (hftp : ¬ utf16 "ftp:" <+: url) (hv6 : ¬ utf16 "::ffff:" <+: host)
    (hloc : ¬ utf16 ".local" <:+ host) :
    FindProxyForURL proxyAddr L tbl url host =
      if host.length = (host2Domain tbl host).length then
        (if truthyProp (directList L) host then direct else httpProxy proxyAddr)
      else
        (if truthyProp (directList L) host || truthyProp (directList L) (host2Domain tbl host)
          then direct else httpProxy proxyAddr) := by
  have h1 := substring_ne_of_not_prefix url (utf16 "ftp:") 4 (by decide) hftp
  have h2 := substring_ne_of_not_prefix host (utf16 "::ffff:") 7 (by decide) hv6
  have h3 : ¬ indexOf host (utf16 ".local") ((host.length : Int) - 6) ≠ -1 :=
    fun h => hloc ((indexOf_local_iff host).mp h)
  unfold FindProxyForURL
  simp only [h1, h2, h3, if_false]

set_option maxRecDepth 100000 in
theorem decimal_octet_ends : ∀ n, n < 256 →
    (decimal n).head? ≠ some 58 ∧ decimal n ≠ [] ∧ (decimal n).getLast? ≠ some 108
      ∧ (decimal n).getLast? ≠ none := by
  decide

theorem objectPrototypeKeys_dot_free : ∀ k ∈ objectPrototypeKeys, dot ∉ k := by
  decide

theorem dotted_not_special (a b c d : Nat) (ha : a < 256) (hd : d < 256) :
    ¬ utf16 "::ffff:" <+: dotted a b c d ∧ ¬ utf16 ".local" <:+ dotted a b c d
      ∧ dotted a b c d ∉ objectPrototypeKeys ∧ dotted a b c d ≠ [] := by
  obtain ⟨hh, hne, -, -⟩ := decimal_octet_ends a ha
  obtain ⟨-, -, hl, hn⟩ := decimal_octet_ends d hd
  refine ⟨?_, ?_, ?_, ?_⟩
  · rintro ⟨t, ht⟩
    have e : utf16 "::ffff:" = 58 :: utf16 ":ffff:" := by decide
    rw [e] at ht
    unfold dotted at ht
    cases hx : decimal a with
    | nil => exact hne hx
    | cons x xs =>
      rw [hx] at ht hh
      simp only [List.cons_append, List.cons.injEq] at ht
      exact hh (by rw [← ht.1]; rfl)
  · rintro ⟨t, ht⟩
    have h1 : (dotted a b c d).getLast? = (decimal d).getLast? := by
      unfold dotted
      rw [List.getLast?_append, List.getLast?_cons]
      cases hg : (decimal d).getLast? with
      | none => exact absurd hg hn
      | some v => simp
    have h2 : (t ++ utf16 ".local").getLast? = some 108 := by
      have e : utf16 ".local" = utf16 ".loca" ++ [108] := by decide
      rw [e, ← List.append_assoc, List.getLast?_append]
      simp
    rw [ht, h1] at h2
    exact hl h2
  · intro hm
    have := objectPrototypeKeys_dot_free _ hm
    apply this
    unfold dotted
    simp
  · unfold dotted
    simp

/-- C11, as stated, fails: with the list holding only `example.com`, the host `localhost`
hits none of the three early rules, neither it nor its reduction (the empty string, of
another length) is a member of the list, yet the script answers `DIRECT`, because the
array `directList` starts with the empty string. -/
theorem findProxyForURL_bare_host_counterexample :
    ¬ utf16 "ftp:" <+: utf16 "http://localhost/"
      ∧ ¬ utf16 "::ffff:" <+: utf16 "localhost" ∧ ¬ utf16 ".local" <:+ utf16 "localhost"
      ∧ (utf16 "localhost").length ≠ (host2Domain [] (utf16 "localhost")).length
      ∧ utf16 "localhost" ∉ [utf16 "example.com"]
      ∧ host2Domain [] (utf16 "localhost") ∉ [utf16 "example.com"]
      ∧ FindProxyForURL (utf16 "127.0.0.1:1080") [utf16 "example.com"] []
          (utf16 "http://localhost/") (utf16 "localhost") = utf16 "DIRECT" := by
  decide

/-- C11, amended: past the three early rules, for a host and a reduced domain that do not
name an inherited property, the script answers `DIRECT` or `PROXY <proxyAddr>; DIRECT`
(two different strings).  When the domain has the length of the host the answer is
`DIRECT` exactly when the host is empty or a member of the list; otherwise it is `DIRECT`
exactly when the host is a member of the list or the domain is empty or a member. -/
theorem findProxyForURL_list_lookup (proxyAddr : JSString) (L topLevel : List JSString)
    (url host : JSString) (hftp : ¬ utf16 "ftp:" <+: url) (hv6 : ¬ utf16 "::ffff:" <+: host)
    (hloc : ¬ utf16 ".local" <:+ host) (hk : host ∉ objectPrototypeKeys)
    (hkd : host2Domain topLevel host ∉ objectPrototypeKeys) :
    utf16 "DIRECT" ≠ utf16 "PROXY " ++ proxyAddr ++ utf16 "; DIRECT"
      ∧ (host.length = (host2Domain topLevel host).length →
          FindProxyForURL proxyAddr L topLevel url host =
            if host = [] ∨ host ∈ L then utf16 "DIRECT"
            else utf16 "PROXY " ++ proxyAddr ++ utf16 "; DIRECT")
      ∧ (host.length ≠ (host2Domain topLevel host).length →
          FindProxyForURL proxyAddr L topLevel url host =
            if host ∈ L ∨ host2Domain topLevel host = [] ∨ host2Domain topLevel host ∈ L
            then utf16 "DIRECT"
            else utf16 "PROXY " ++ proxyAddr ++ utf16 "; DIRECT") := by
  refine ⟨direct_ne_httpProxy proxyAddr, fun hlen => ?_, fun hlen => ?_⟩
  · rw [findProxyForURL_past_rules proxyAddr L topLevel url host hftp hv6 hloc,
      truthyProp_directList L host hk]
    simp only [hlen, if_true, direct, httpProxy, decide_eq_true_eq]
  · have hne : host ≠ [] := by
      intro e
      apply hlen
      rw [e, host2Domain_dot_free topLevel [] (by simp)]
    rw [findProxyForURL_past_rules proxyAddr L topLevel url host hftp hv6 hloc,
      truthyProp_directList L host hk, truthyProp_directList L _ hkd]
    simp only [hlen, if_false, direct, httpProxy, Bool.or_eq_true, decide_eq_true_eq, hne,
      false_or]

/-- C11, amended, at the host `sub.example.com` with the list holding `foo.org`: neither
the host nor its domain `example.com` is listed, and the script answers with the proxy. -/
theorem findProxyForURL_list_lookup_witness :
    FindProxyForURL (utf16 "127.0.0.1:1080") [utf16 "foo.org"] []
        (utf16 "http://sub.example.com/") (utf16 "sub.example.com")
      = utf16 "PROXY 127.0.0.1:1080; DIRECT" := by
  have h := (findProxyForURL_list_lookup (utf16 "127.0.0.1:1080") [utf16 "foo.org"] []
    (utf16 "http://sub.example.com/") (utf16 "sub.example.com") (by decide) (by decide)
    (by decide) (by decide) (by decide)).2.2 (by decide)
  rw [h]
  decide

/-- C13: in the full script a public dotted-decimal host that is not a member of the direct
list, asked with a url that does not begin with `ftp:`, gets `PROXY <proxyAddr>; DIRECT`,
for every list, proxy address and table. -/
theorem findProxyForURL_public_ipv4 (proxyAddr : JSString) (L topLevel : List JSString)
    (url : JSString) (a b c d : Nat) (ha : a ≤ 255) (hb : b ≤ 255) (hc : c ≤ 255)
    (hd : d ≤ 255)
    (hp : ¬ (a = 10 ∨ a = 127 ∨ (a = 192 ∧ b = 168) ∨ (a = 172 ∧ 16 ≤ b ∧ b ≤ 31)))
    (hftp : ¬ utf16 "ftp:" <+: url) (hL : dotted a b c d ∉ L) :
    FindProxyForURL proxyAddr L topLevel url (dotted a b c d)
      = utf16 "PROXY " ++ proxyAddr ++ utf16 "; DIRECT" := by
  obtain ⟨hv6, hloc, hk, hne⟩ := dotted_not_special a b c d (by omega) (by omega)
  have hip := hostIsIP_dotted a b c d (by omega) (by omega) (by omega) (by omega)
  have hdec : decide (isPrivateRange a b) = false := decide_eq_false hp
  have hdom : host2Domain topLevel (dotted a b c d) = dotted a b c d := by
    unfold host2Domain
    simp [hip, hdec]
  rw [findProxyForURL_past_rules proxyAddr L topLevel url _ hftp hv6 hloc, hdom,
    truthyProp_directList L _ hk]
  simp [hne, hL, httpProxy]

/-- C13 at the host `8.8.4.4` with the list `example.com`, `foo.org`. -/
theorem findProxyForURL_public_ipv4_witness :
    dotted 8 8 4 4 = utf16 "8.8.4.4"
      ∧ FindProxyForURL (utf16 "127.0.0.1:1080") [utf16 "example.com", utf16 "foo.org"] []
          (utf16 "http://8.8.4.4/") (dotted 8 8 4 4)
        = utf16 "PROXY " ++ utf16 "127.0.0.1:1080" ++ utf16 "; DIRECT" :=
  ⟨by decide, findProxyForURL_public_ipv4 (utf16 "127.0.0.1:1080")
    [utf16 "example.com", utf16 "foo.org"] [] (utf16 "http://8.8.4.4/") 8 8 4 4
    (by decide) (by decide) (by decide) (by decide) (by decide) (by decide) (by decide)⟩

/-- C14: in the full script a host whose reduction `host2Domain(host)` is a member of the
direct list gets `DIRECT`, for every list, proxy address, table and url (whether or not one
of the three early rules applies). -/
theorem findProxyForURL_listed_domain (proxyAddr : JSString) (L topLevel : List JSString)
    (url host d : JSString) (hd : d ∈ L) (hred : host2Domain topLevel host = d) :
    FindProxyForURL proxyAddr L topLevel url host = utf16 "DIRECT" := by
  have ht : truthyProp (directList L) d = true :=
    truthyProp_of_mem _ _ (by simp [directList, hd])
  unfold FindProxyForURL
  simp only [hred]
  split_ifs with h1 h2 h3 h4 h5 h6
  · rfl
  · rfl
  · rfl
  · rfl
  · have e := host2Domain_eq_of_length topLevel host (by rw [hred]; exact h4)
    rw [hred] at e
    rw [← e, ht] at h5
    exact absurd rfl h5
  · rfl
  · rw [ht] at h6
    simp at h6

/-- C14 at the host `sub.example.com` with the list `example.com`, `foo.org`. -/
theorem findProxyForURL_listed_domain_witness :
    utf16 "example.com" ∈ [utf16 "example.com", utf16 "foo.org"]
      ∧ host2Domain [] (utf16 "sub.example.com") = utf16 "example.com"
      ∧ FindProxyForURL (utf16 "127.0.0.1:1080") [utf16 "example.com", utf16 "foo.org"] []
          (utf16 "http://sub.example.com/") (utf16 "sub.example.com") = utf16 "DIRECT" :=
  ⟨by decide, by decide, findProxyForURL_listed_domain (utf16 "127.0.0.1:1080")
    [utf16 "example.com", utf16 "foo.org"] [] (utf16 "http://sub.example.com/")
    (utf16 "sub.example.com") (utf16 "example.com") (by decide) (by decide)⟩

/-- C20: for every host and table the result of `host2Domain` is a suffix of the host: the
empty string, the host itself, or what follows one of the dots of the host; so the host and
the domain have the same length exactly when the domain is the host. -/
theorem host2Domain_suffix_of_host (topLevel : List JSString) (host : JSString) :
    (host2Domain topLevel host = [] ∨ host2Domain topLevel host = host
        ∨ ∃ pre, host = pre ++ dot :: host2Domain topLevel host)
      ∧ host2Domain topLevel host <:+ host
      ∧ (host.length = (host2Domain topLevel host).length ↔ host2Domain topLevel host = host) :=
  ⟨host2Domain_cases topLevel host, host2Domain_suffix topLevel host,
    fun h => host2Domain_eq_of_length topLevel host h, fun h => by rw [h]⟩

/-! ## The document of `genPAC` -/

theorem pacHeader_eq : pacHeader = utf8
    "HTTP/1.1 200 OK\r\nServer: cow-proxy\r\nContent-Type: application/x-ns-proxy-autoconfig\r\nConnection: close\r\n\r\n" := by
  decide

theorem Join_nil (sep : GoString) : Join [] sep = [] := rfl

theorem Join_cons_cons (a b : GoString) (rest : List GoString) (sep : GoString) :
    Join (a :: b :: rest) sep = a ++ sep ++ Join (b :: rest) sep := rfl

/-- The joined list is empty exactly for the empty list and for the list of one empty
string. -/
theorem Join_eq_nil_iff (L : List GoString) (sep : GoString) (hsep : sep ≠ []) :
    Join L sep = [] ↔ L = [] ∨ L = [[]] := by
  match L with
  | [] => simp [Join]
  | [a] => simp [Join]
  | a :: b :: rest => simp [Join, hsep]

theorem genPAC_of_empty (splitHostPort : GoString → Option GoString)
    (joinHostPort : GoString → GoString → GoString) (pac : PacVars) (c : ClientConn)
    (p : GoString) (hp : pacProxyAddr splitHostPort joinHostPort c = some p)
    (hdl : getDirectList pac = []) :
    genPAC splitHostPort joinHostPort pac c = some (pacHeader ++ minimalBody p) := by
  unfold genPAC
  simp [hp, hdl]

theorem genPAC_of_nonempty (splitHostPort : GoString → Option GoString)
    (joinHostPort : GoString → GoString → GoString) (pac : PacVars) (c : ClientConn)
    (p : GoString) (hp : pacProxyAddr splitHostPort joinHostPort c = some p)
    (hdl : getDirectList pac ≠ []) :
    genPAC splitHostPort joinHostPort pac c
      = some (pacHeader ++ execute pacRawTmpl ⟨p, getDirectList pac, pac.topLevelDomain⟩) := by
  unfold genPAC
  simp [hp, hdl]

theorem pacProxyAddr_of_addrInPAC (splitHostPort : GoString → Option GoString)
    (joinHostPort : GoString → GoString → GoString) (c : ClientConn)
    (h1 : c.proxyIsHTTP = true) (h2 : c.addrInPAC ≠ []) :
    pacProxyAddr splitHostPort joinHostPort c = some c.addrInPAC := by
  simp [pacProxyAddr, h1, h2]

/-- The output of the template: the six pieces of text around the three fields. -/
theorem execute_pacRawTmpl (data : PacData) :
    execute pacRawTmpl data = tmplBeforeProxyAddr ++ data.ProxyAddr ++ tmplBeforeArray
      ++ (tmplArrayOpen ++ data.DirectDomains ++ tmplArrayClose
        ++ (tmplBeforeTopLevel ++ data.TopLevel ++ tmplFunctions)) := by
  simp [execute, pacRawTmpl, TmplNode.render, List.append_assoc]

/-- C15: when the direct-domain list is empty, `genPAC` returns the fixed header followed by
the one-rule body with the proxy address, and nothing else. -/
theorem genPAC_empty_direct_list (splitHostPort : GoString → Option GoString)
    (joinHostPort : GoString → GoString → GoString) (pac : PacVars) (c : ClientConn)
    (p : GoString) (hp : pacProxyAddr splitHostPort joinHostPort c = some p) :
    genPAC splitHostPort joinHostPort (updateDirectList [] pac) c = some (utf8
      "HTTP/1.1 200 OK\r\nServer: cow-proxy\r\nContent-Type: application/x-ns-proxy-autoconfig\r\nConnection: close\r\n\r\n"
      ++ (utf8 "function FindProxyForURL(url, host) \x7b return \x27PROXY " ++ p
        ++ utf8 "; DIRECT\x27; \x7d;")) := by
  rw [genPAC_of_empty splitHostPort joinHostPort (updateDirectList [] pac) c p hp rfl,
    pacHeader_eq]
  rfl

set_option maxRecDepth 100000 in
/-- C15 at the proxy address `127.0.0.1:1080`, configured as `addrInPAC`. -/
theorem genPAC_empty_direct_list_witness :
    pacProxyAddr (fun _ => none) (fun h p => h ++ utf8 ":" ++ p)
        ⟨true, utf8 "127.0.0.1:1080", utf8 "1080", utf8 "127.0.0.1:1080"⟩
      = some (utf8 "127.0.0.1:1080")
    ∧ genPAC (fun _ => none) (fun h p => h ++ utf8 ":" ++ p) (updateDirectList [] ⟨[], []⟩)
        ⟨true, utf8 "127.0.0.1:1080", utf8 "1080", utf8 "127.0.0.1:1080"⟩
      = some (utf8
        "HTTP/1.1 200 OK\r\nServer: cow-proxy\r\nContent-Type: application/x-ns-proxy-autoconfig\r\nConnection: close\r\n\r\n"
        ++ utf8 "function FindProxyForURL(url, host) \x7b return \x27PROXY 127.0.0.1:1080; DIRECT\x27; \x7d;") := by
  refine ⟨by decide, ?_⟩
  rw [genPAC_empty_direct_list (fun _ => none) (fun h p => h ++ utf8 ":" ++ p) ⟨[], []⟩
    ⟨true, utf8 "127.0.0.1:1080", utf8 "1080", utf8 "127.0.0.1:1080"⟩ (utf8 "127.0.0.1:1080")
    (by decide)]
  decide

/-! ## The serialized table of `init` -/

theorem topLevelEntry_eq (k : GoString) :
    topLevelEntry k = (utf8 "\t\"" ++ k ++ utf8 "\": true") ++ [44, 10] := by
  have e : utf8 "\": true,\n" = utf8 "\": true" ++ [44, 10] := by decide
  unfold topLevelEntry
  rw [e, List.append_assoc, List.append_assoc, List.append_assoc]

theorem initTopLevelDomain_concat (front : List GoString) (last : GoString) :
    2 ≤ (((front ++ [last]).map topLevelEntry).flatten).length
      ∧ initTopLevelDomain (front ++ [last])
        = some ((front.map topLevelEntry).flatten ++ (utf8 "\t\"" ++ last ++ utf8 "\": true")) := by
  have hb : ((front ++ [last]).map topLevelEntry).flatten
      = ((front.map topLevelEntry).flatten ++ (utf8 "\t\"" ++ last ++ utf8 "\": true"))
        ++ [44, 10] := by
    rw [List.map_append, List.flatten_append, List.map_singleton, List.flatten_singleton,
      topLevelEntry_eq last]
    simp only [List.append_assoc]
  unfold initTopLevelDomain
  simp only [hb]
  have hl : ¬ ((((front.map topLevelEntry).flatten
      ++ (utf8 "\t\"" ++ last ++ utf8 "\": true")) ++ [44, 10]).length < 2) := by
    rw [List.length_append]
    simp
  refine ⟨by omega, ?_⟩
  rw [if_neg hl]
  congr 1
  apply List.take_left'
  generalize (front.map topLevelEntry).flatten ++ (utf8 "\t\"" ++ last ++ utf8 "\": true") = x
  rw [List.length_append]
  simp

/-- C19: for a non-empty table the slice of `init` is within bounds and the string stored in
`pac.topLevelDomain` is the entries `\t"k": true,\n` of all keys but the last, in the order
of the loop, followed by the entry of the last key without its comma and line break; it ends
in `true`. -/
theorem initTopLevelDomain_nonempty (keys : List GoString) (h : keys ≠ []) :
    2 ≤ ((keys.map (fun k => utf8 "\t\"" ++ k ++ utf8 "\": true,\n")).flatten).length
      ∧ initTopLevelDomain keys
        = some ((keys.dropLast.map (fun k => utf8 "\t\"" ++ k ++ utf8 "\": true,\n")).flatten
            ++ (utf8 "\t\"" ++ keys.getLast h ++ utf8 "\": true"))
      ∧ utf8 "true" <:+
          (keys.dropLast.map (fun k => utf8 "\t\"" ++ k ++ utf8 "\": true,\n")).flatten
            ++ (utf8 "\t\"" ++ keys.getLast h ++ utf8 "\": true") := by
  have hk := List.dropLast_append_getLast h
  have hc := initTopLevelDomain_concat keys.dropLast (keys.getLast h)
  rw [hk] at hc
  refine ⟨hc.1, hc.2, ?_⟩
  have e : utf8 "\": true" = utf8 "\": " ++ utf8 "true" := by decide
  rw [e]
  exact ⟨(keys.dropLast.map (fun k => utf8 "\t\"" ++ k ++ utf8 "\": true,\n")).flatten
    ++ (utf8 "\t\"" ++ keys.getLast h ++ utf8 "\": "), by simp [List.append_assoc]⟩

/-- C19 at the table with the keys `co` and `com`, visited in this order. -/
theorem initTopLevelDomain_nonempty_witness :
    initTopLevelDomain [utf8 "co", utf8 "com"]
      = some (utf8 "\t\"co\": true,\n\t\"com\": true") := by
  rw [(initTopLevelDomain_nonempty [utf8 "co", utf8 "com"] (by decide)).2.1]
  decide

/-! ## Private hosts in `FindProxyForURL` -/

theorem findProxyForURL_private_ipv4 (proxyAddr : JSString) (L topLevel : List JSString)
    (url : JSString) (a b c d : Nat) (ha : a ≤ 255) (hb : b ≤ 255) (hc : c ≤ 255)
    (hd : d ≤ 255)
    (hp : a = 10 ∨ a = 127 ∨ (a = 192 ∧ b = 168) ∨ (a = 172 ∧ 16 ≤ b ∧ b ≤ 31)) :
    FindProxyForURL proxyAddr L topLevel url (dotted a b c d) = utf16 "DIRECT" := by
  have hip := hostIsIP_dotted a b c d (by omega) (by omega) (by omega) (by omega)
  have hdec : decide (isPrivateRange a b) = true := decide_eq_true hp
  have hdom : host2Domain topLevel (dotted a b c d) = [] := by
    unfold host2Domain
    simp [hip, hdec]
  have ht : truthyProp (directList L) [] = true := truthyProp_of_mem _ _ (by simp [directList])
  have hne := (dotted_not_special a b c d (by omega) (by omega)).2.2.2
  have hlen : ¬ (dotted a b c d).length = ([] : JSString).length := by
    intro e
    exact hne (List.length_eq_zero.mp e)
  unfold FindProxyForURL
  simp only [hdom, ht, Bool.or_true, if_true, hlen, if_false]
  split_ifs <;> rfl

/-! ## Reading the array literal of `directList` -/

theorem isPlainByte_spec (b : Nat) (h : isPlainByte b = true) :
    b ≠ 34 ∧ ¬ (b = 92 ∨ b = 10 ∨ b = 13 ∨ b = 8232 ∨ b = 8233) := by
  simp only [isPlainByte, Bool.and_eq_true, decide_eq_true_eq, Bool.not_eq_true',
    beq_eq_false_iff_ne, ne_eq] at h
  omega

theorem readStringLiteral_plain (d rest : List Nat) (hd : ∀ b ∈ d, isPlainByte b = true) :
    readStringLiteral (d ++ 34 :: rest) = some (d, rest) := by
  induction d with
  | nil => simp [readStringLiteral]
  | cons b bs ih =>
    obtain ⟨h1, h2⟩ := isPlainByte_spec b (hd b (by simp))
    have := ih (fun x hx => hd x (by simp [hx]))
    simp [readStringLiteral, h1, h2, this]

theorem parseElements_line_break (fuel : Nat) (t : List Nat) :
    parseElements fuel (10 :: t) = parseElements fuel t := by
  cases fuel with
  | zero => rfl
  | succ n =>
    have e : skipWhiteSpace (10 :: t) = skipWhiteSpace t := by
      simp [skipWhiteSpace, List.dropWhile, isStrWhiteSpace]
    simp only [parseElements, e]

theorem skipWhiteSpace_quote (t : List Nat) : skipWhiteSpace (34 :: t) = 34 :: t := by
  simp [skipWhiteSpace, List.dropWhile, isStrWhiteSpace]

theorem skipWhiteSpace_comma (t : List Nat) : skipWhiteSpace (44 :: t) = 44 :: t := by
  simp [skipWhiteSpace, List.dropWhile, isStrWhiteSpace]

theorem skipWhiteSpace_line_bracket (t : List Nat) :
    skipWhiteSpace (10 :: 93 :: t) = 93 :: t := by
  simp [skipWhiteSpace, List.dropWhile, isStrWhiteSpace]

theorem separator_eq : utf8 "\",\n\"" = [34, 44, 10, 34] := by decide

/-- The elements read from quoted plain strings joined by the separator of
`updateDirectList` are these strings. -/
theorem parseElements_joined : ∀ (ds : List GoString) (d : GoString) (fuel : Nat)
    (tail : List Nat), (∀ x ∈ d :: ds, ∀ b ∈ x, isPlainByte b = true) → ds.length < fuel →
    parseElements fuel (34 :: (Join (d :: ds) (utf8 "\",\n\"") ++ 34 :: 10 :: 93 :: tail))
      = some (d :: ds, tail) := by
  intro ds
  induction ds with
  | nil =>
    intro d fuel tail hplain hfuel
    obtain ⟨n, rfl⟩ : ∃ n, fuel = n + 1 := ⟨fuel - 1, by omega⟩
    have hr := readStringLiteral_plain d (10 :: 93 :: tail) (hplain d (by simp))
    simp only [parseElements, skipWhiteSpace_quote, Join, hr, skipWhiteSpace_line_bracket]
  | cons e es ih =>
    intro d fuel tail hplain hfuel
    obtain ⟨n, rfl⟩ : ∃ n, fuel = n + 1 := ⟨fuel - 1, by omega⟩
    have hj : Join (d :: e :: es) (utf8 "\",\n\"") ++ 34 :: 10 :: 93 :: tail
        = d ++ 34 :: 44 :: 10 :: 34 :: (Join (e :: es) (utf8 "\",\n\"") ++ 34 :: 10 :: 93 :: tail) := by
      rw [Join_cons_cons, separator_eq]
      simp [List.append_assoc]
    have hr := readStringLiteral_plain d
      (44 :: 10 :: 34 :: (Join (e :: es) (utf8 "\",\n\"") ++ 34 :: 10 :: 93 :: tail))
      (hplain d (by simp))
    have hrec := ih e n tail (fun x hx => hplain x (by simp [List.mem_cons] at hx ⊢; tauto))
      (by simp only [List.length_cons] at hfuel; omega)
    rw [hj]
    simp only [parseElements, skipWhiteSpace_quote, hr, skipWhiteSpace_comma,
      parseElements_line_break, hrec]

theorem Join_length (ds : List GoString) (sep : GoString) (hsep : 1 ≤ sep.length) :
    ds.length ≤ (Join ds sep).length + 1 := by
  induction ds with
  | nil => simp
  | cons d rest ih =>
    cases rest with
    | nil => simp
    | cons e es =>
      rw [Join_cons_cons]
      simp only [List.length_append, List.length_cons] at ih ⊢
      omega

/-- The array literal the template writes for a joined list of plain strings holds the
empty string and then these strings. -/
theorem parseArrayLiteral_rendered (ds : List GoString) (tail : List Nat)
    (hne : ds ≠ []) (hplain : ∀ x ∈ ds, ∀ b ∈ x, isPlainByte b = true) :
    parseArrayLiteral (tmplArrayOpen ++ Join ds (utf8 "\",\n\"") ++ tmplArrayClose ++ tail)
      = some ([] :: ds, tail) := by
  have ho : tmplArrayOpen = [91, 10, 34, 34, 44, 10, 34] := by decide
  have hc : tmplArrayClose = [34, 10, 93] := by decide
  obtain ⟨d, rest, rfl⟩ : ∃ d rest, ds = d :: rest := by
    cases ds with
    | nil => exact absurd rfl hne
    | cons d rest => exact ⟨d, rest, rfl⟩
  have hlen := Join_length (d :: rest) (utf8 "\",\n\"") (by rw [separator_eq]; simp)
  have ht : tmplArrayOpen ++ Join (d :: rest) (utf8 "\",\n\"") ++ tmplArrayClose ++ tail
      = 91 :: 10 :: 34 :: (Join ([] :: d :: rest) (utf8 "\",\n\"") ++ 34 :: 10 :: 93 :: tail) := by
    rw [ho, hc, Join_cons_cons [] d rest, separator_eq]
    simp [List.append_assoc]
  rw [ht]
  unfold parseArrayLiteral
  simp only [parseElements_line_break]
  apply parseElements_joined (d :: rest) [] _ tail
  · intro x hx b hb
    rcases List.mem_cons.mp hx with rfl | hx
    · simp at hb
    · exact hplain x hx b hb
  · rw [Join_cons_cons [] d rest, separator_eq]
    rw [separator_eq] at hlen
    simp only [List.length_cons, List.length_append, List.nil_append, List.length_nil]
      at hlen ⊢
    omega

/-! ## Which document `genPAC` returns -/

theorem execute_ne_minimalBody (data : PacData) (p : GoString) :
    execute pacRawTmpl data ≠ minimalBody p := by
  have e1 : tmplBeforeProxyAddr = 118 :: tmplBeforeProxyAddr.tail := by decide
  have e2 : utf8 "function FindProxyForURL(url, host) \x7b return \x27PROXY "
      = 102 :: (utf8 "function FindProxyForURL(url, host) \x7b return \x27PROXY ").tail := by
    decide
  rw [execute_pacRawTmpl]
  unfold minimalBody
  rw [e1, e2]
  intro h
  simp only [List.cons_append, List.cons.injEq] at h
  omega

/-- C16, as stated, fails: the provider list holding one empty string is not empty, yet its
joined form is the empty string and `genPAC` returns the minimal document. -/
theorem genPAC_single_empty_domain_counterexample :
    ([[]] : List GoString) ≠ []
      ∧ getDirectList (updateDirectList [[]] ⟨[], []⟩) = []
      ∧ ∀ (splitHostPort : GoString → Option GoString)
          (joinHostPort : GoString → GoString → GoString),
          genPAC splitHostPort joinHostPort (updateDirectList [[]] ⟨[], []⟩)
              ⟨true, utf8 "127.0.0.1:1080", utf8 "1080", utf8 "127.0.0.1:1080"⟩
            = some (pacHeader ++ minimalBody (utf8 "127.0.0.1:1080")) := by
  refine ⟨by decide, rfl, fun splitHostPort joinHostPort => ?_⟩
  exact genPAC_of_empty splitHostPort joinHostPort (updateDirectList [[]] ⟨[], []⟩)
    ⟨true, utf8 "127.0.0.1:1080", utf8 "1080", utf8 "127.0.0.1:1080"⟩ (utf8 "127.0.0.1:1080")
    (pacProxyAddr_of_addrInPAC splitHostPort joinHostPort _ rfl (by decide)) rfl

/-- C16, amended: `genPAC` returns the minimal document exactly when the joined direct list
is the empty string, that is when the provider list is empty or holds only the empty string;
for every other list it returns the header followed by the template filled with the proxy
address, the joined list and the serialized table. -/
theorem genPAC_minimal_iff (splitHostPort : GoString → Option GoString)
    (joinHostPort : GoString → GoString → GoString) (pac : PacVars) (conn : ClientConn)
    (p : GoString) (L : List GoString)
    (hp : pacProxyAddr splitHostPort joinHostPort conn = some p) :
    (genPAC splitHostPort joinHostPort (updateDirectList L pac) conn
          = some (pacHeader ++ minimalBody p) ↔ L = [] ∨ L = [[]])
      ∧ (¬ (L = [] ∨ L = [[]]) →
          genPAC splitHostPort joinHostPort (updateDirectList L pac) conn
            = some (pacHeader ++ execute pacRawTmpl
                ⟨p, Join L (utf8 "\",\n\""), pac.topLevelDomain⟩)) := by
  have hsep : utf8 "\",\n\"" ≠ [] := by decide
  have hj := Join_eq_nil_iff L (utf8 "\",\n\"") hsep
  have hfull : ¬ (L = [] ∨ L = [[]]) →
      genPAC splitHostPort joinHostPort (updateDirectList L pac) conn
        = some (pacHeader ++ execute pacRawTmpl
            ⟨p, Join L (utf8 "\",\n\""), pac.topLevelDomain⟩) := fun hL =>
    genPAC_of_nonempty splitHostPort joinHostPort (updateDirectList L pac) conn p hp
      (fun e => hL (hj.mp e))
  refine ⟨⟨fun h => ?_, fun hL => ?_⟩, hfull⟩
  · by_contra hL
    rw [hfull hL] at h
    have h2 := List.append_cancel_left (Option.some.inj h)
    exact execute_ne_minimalBody _ _ h2
  · exact genPAC_of_empty splitHostPort joinHostPort (updateDirectList L pac) conn p hp
      (hj.mpr hL)

/-- C16, amended, at the provider list holding `example.com`: the template is used. -/
theorem genPAC_minimal_iff_witness :
    genPAC (fun _ => none) (fun h p => h ++ utf8 ":" ++ p)
        (updateDirectList [utf8 "example.com"] ⟨[], []⟩)
        ⟨true, utf8 "127.0.0.1:1080", utf8 "1080", utf8 "127.0.0.1:1080"⟩
      = some (pacHeader ++ execute pacRawTmpl
          ⟨utf8 "127.0.0.1:1080", Join [utf8 "example.com"] (utf8 "\",\n\""), []⟩) :=
  (genPAC_minimal_iff (fun _ => none) (fun h p => h ++ utf8 ":" ++ p) ⟨[], []⟩
    ⟨true, utf8 "127.0.0.1:1080", utf8 "1080", utf8 "127.0.0.1:1080"⟩ (utf8 "127.0.0.1:1080")
    [utf8 "example.com"] (by decide)).2 (by decide)

/-! ## Octets written with a leading zero -/

/-- The parts of a host made of two fixed dot-free labels and two plain decimal octets. -/
theorem split_two_labels_two_octets (p0 p1 : JSString) (c d : Nat) (h0 : dot ∉ p0)
    (h1 : dot ∉ p1) (hc : c < 256) (hd : d < 256) :
    split (p0 ++ dot :: p1 ++ dot :: decimal c ++ dot :: decimal d)
      = [p0, p1, decimal c, decimal d] := by
  have fc := (decimal_octet_facts c hc).1
  have fd := (decimal_octet_facts d hd).1
  simp only [List.append_assoc, List.cons_append]
  rw [split_append_dot _ _ h0, split_append_dot _ _ h1, split_append_dot _ _ fc,
    split_dot_free _ fd]

/-- C21: the ranges 10/8, 127/8 and 192.168/16 are decided on the text of the octets and
the range 172.16/12 on the number read from the second octet.  For all `c`, `d` in
`[0,255]` the host `010.0.c.d` is reported as `[true, false]` and returned whole by
`host2Domain`, although `10.0.c.d` is reported as `[true, true]`; and the host
`172.016.c.d` is reported as `[true, true]`, as `172.16.c.d` is, and reduced to the empty
string. -/
theorem hostIsIP_leading_zero (topLevel : List JSString) (c d : Nat) (hc : c ≤ 255)
    (hd : d ≤ 255) :
    hostIsIP (utf16 "010" ++ dot :: utf16 "0" ++ dot :: decimal c ++ dot :: decimal d)
        = (true, false)
      ∧ host2Domain topLevel
          (utf16 "010" ++ dot :: utf16 "0" ++ dot :: decimal c ++ dot :: decimal d)
        = utf16 "010" ++ dot :: utf16 "0" ++ dot :: decimal c ++ dot :: decimal d
      ∧ hostIsIP (dotted 10 0 c d) = (true, true)
      ∧ hostIsIP (utf16 "172" ++ dot :: utf16 "016" ++ dot :: decimal c ++ dot :: decimal d)
        = (true, true)
      ∧ host2Domain topLevel
          (utf16 "172" ++ dot :: utf16 "016" ++ dot :: decimal c ++ dot :: decimal d) = []
      ∧ hostIsIP (dotted 172 16 c d) = (true, true) := by
  obtain ⟨-, oc, -⟩ := decimal_octet_facts c (by omega)
  obtain ⟨-, od, -⟩ := decimal_octet_facts d (by omega)
  have s1 := split_two_labels_two_octets (utf16 "010") (utf16 "0") c d (by decide) (by decide)
    (by omega) (by omega)
  have s2 := split_two_labels_two_octets (utf16 "172") (utf16 "016") c d (by decide)
    (by decide) (by omega) (by omega)
  have o010 : partIsOctet (utf16 "010") = true := by decide
  have o0 : partIsOctet (utf16 "0") = true := by decide
  have o172 : partIsOctet (utf16 "172") = true := by decide
  have o016 : partIsOctet (utf16 "016") = true := by decide
  have n016 : Number (utf16 "016") = some 16 := by decide
  have t1 : ¬ (utf16 "010" = utf16 "127" ∨ utf16 "010" = utf16 "10"
      ∨ (utf16 "010" = utf16 "192" ∧ utf16 "0" = utf16 "168")) := by decide
  have t2 : ¬ utf16 "010" = utf16 "172" := by decide
  have t3 : ¬ (utf16 "172" = utf16 "127" ∨ utf16 "172" = utf16 "10"
      ∨ (utf16 "172" = utf16 "192" ∧ utf16 "016" = utf16 "168")) := by decide
  have h1 : hostIsIP (utf16 "010" ++ dot :: utf16 "0" ++ dot :: decimal c ++ dot :: decimal d)
      = (true, false) := by
    unfold hostIsIP
    simp only [s1, List.length_cons, List.length_nil, List.all_cons, List.all_nil,
      List.getD_cons_zero, List.getD_cons_succ, o010, o0, oc, od, t1, t2]
    simp
  have h2 : hostIsIP (utf16 "172" ++ dot :: utf16 "016" ++ dot :: decimal c ++ dot :: decimal d)
      = (true, true) := by
    unfold hostIsIP
    simp only [s2, List.length_cons, List.length_nil, List.all_cons, List.all_nil,
      List.getD_cons_zero, List.getD_cons_succ, o172, o016, oc, od, t3, n016]
    simp
  have h3 := hostIsIP_dotted 10 0 c d (by omega) (by omega) (by omega) (by omega)
  have h4 := hostIsIP_dotted 172 16 c d (by omega) (by omega) (by omega) (by omega)
  have d3 : decide (isPrivateRange 10 0) = true := by decide
  have d4 : decide (isPrivateRange 172 16) = true := by decide
  rw [d3] at h3
  rw [d4] at h4
  refine ⟨h1, ?_, h3, h2, ?_, h4⟩
  · unfold host2Domain
    simp only [h1]
    simp
  · unfold host2Domain
    simp only [h2]
    simp

/-- C21 at `c = 1`, `d = 2`: the hosts `010.0.1.2` and `172.016.1.2`. -/
theorem hostIsIP_leading_zero_witness :
    utf16 "010" ++ dot :: utf16 "0" ++ dot :: decimal 1 ++ dot :: decimal 2 = utf16 "010.0.1.2"
      ∧ utf16 "172" ++ dot :: utf16 "016" ++ dot :: decimal 1 ++ dot :: decimal 2
        = utf16 "172.016.1.2"
      ∧ hostIsIP (utf16 "010" ++ dot :: utf16 "0" ++ dot :: decimal 1 ++ dot :: decimal 2)
        = (true, false)
      ∧ host2Domain []
          (utf16 "172" ++ dot :: utf16 "016" ++ dot :: decimal 1 ++ dot :: decimal 2) = [] :=
  ⟨by decide, by decide, (hostIsIP_leading_zero [] 1 2 (by decide) (by decide)).1,
    (hostIsIP_leading_zero [] 1 2 (by decide) (by decide)).2.2.2.2.1⟩

/-! ## Reading the document of `genPAC` -/

theorem expectText_append (pre t : List Nat) : expectText pre (pre ++ t) = some t := by
  unfold expectText
  have h : pre.isPrefixOf (pre ++ t) = true :=
    List.isPrefixOf_iff_prefix.mpr (List.prefix_append pre t)
  rw [if_pos h, List.drop_left]

theorem expectText_head_ne (a b : Nat) (pre t : List Nat) (h : a ≠ b) :
    expectText (a :: pre) (b :: t) = none := by
  unfold expectText
  have hp : (a :: pre).isPrefixOf (b :: t) = false := by
    simp [List.isPrefixOf, h]
  simp [hp]

theorem isPlainAddrByte_spec (b : Nat) (h : isPlainAddrByte b = true) :
    b ≠ 39 ∧ ¬ (b = 92 ∨ b = 10 ∨ b = 13 ∨ b = 8232 ∨ b = 8233) ∧ b < 128 := by
  simp only [isPlainAddrByte, Bool.and_eq_true, decide_eq_true_eq, Bool.not_eq_true',
    beq_eq_false_iff_ne, ne_eq] at h
  omega

theorem readSingleQuoted_plain (s rest : List Nat)
    (hs : ∀ b ∈ s, isPlainAddrByte b = true) :
    readSingleQuoted (s ++ 39 :: rest) = some (s, rest) := by
  induction s with
  | nil => simp [readSingleQuoted]
  | cons b bs ih =>
    obtain ⟨h1, h2, -⟩ := isPlainAddrByte_spec b (hs b (by simp))
    have := ih (fun x hx => hs x (by simp [hx]))
    simp [readSingleQuoted, h1, h2, this]

theorem isAscii_of_plain (s : List Nat) (hs : ∀ b ∈ s, isPlainByte b = true) :
    isAscii s = true := by
  simp only [isAscii, List.all_eq_true, decide_eq_true_eq]
  intro b hb
  have := hs b hb
  simp only [isPlainByte, Bool.and_eq_true, decide_eq_true_eq] at this
  exact this.1.1.1.1

theorem isAscii_of_plain_addr (s : List Nat) (hs : ∀ b ∈ s, isPlainAddrByte b = true) :
    isAscii s = true := by
  simp only [isAscii, List.all_eq_true, decide_eq_true_eq]
  intro b hb
  exact (isPlainAddrByte_spec b (hs b hb)).2.2

theorem skipWhiteSpace_of_not (c : Nat) (t : List Nat) (h : isStrWhiteSpace c = false) :
    skipWhiteSpace (c :: t) = c :: t := by
  simp [skipWhiteSpace, List.dropWhile, h]

theorem skipWhiteSpace_of_space (c : Nat) (t : List Nat) (h : isStrWhiteSpace c = true) :
    skipWhiteSpace (c :: t) = skipWhiteSpace t := by
  simp [skipWhiteSpace, List.dropWhile, h]

theorem expectText_true (t : List Nat) :
    expectText (utf8 "true") (116 :: 114 :: 117 :: 101 :: t) = some t := by
  have e : utf8 "true" = [116, 114, 117, 101] := by decide
  have := expectText_append (utf8 "true") t
  rw [e] at this ⊢
  simpa using this

theorem parseEntries_line_break (fuel : Nat) (t : List Nat) :
    parseEntries fuel (10 :: t) = parseEntries fuel t := by
  cases fuel with
  | zero => rfl
  | succ n =>
    have e : skipWhiteSpace (10 :: t) = skipWhiteSpace t :=
      skipWhiteSpace_of_space 10 t (by decide)
    simp only [parseEntries, e]

theorem topLevelEntry_bytes (k : GoString) (t : List Nat) :
    topLevelEntry k ++ t
      = 9 :: 34 :: (k ++ 34 :: 58 :: 32 :: 116 :: 114 :: 117 :: 101 :: 44 :: 10 :: t) := by
  have e1 : utf8 "\t\"" = [9, 34] := by decide
  have e2 : utf8 "\": true,\n" = [34, 58, 32, 116, 114, 117, 101, 44, 10] := by decide
  unfold topLevelEntry
  rw [e1, e2]
  simp [List.append_assoc]

theorem lastEntry_bytes (k : GoString) (t : List Nat) :
    (utf8 "\t\"" ++ k ++ utf8 "\": true") ++ t
      = 9 :: 34 :: (k ++ 34 :: 58 :: 32 :: 116 :: 114 :: 117 :: 101 :: t) := by
  have e1 : utf8 "\t\"" = [9, 34] := by decide
  have e2 : utf8 "\": true" = [34, 58, 32, 116, 114, 117, 101] := by decide
  rw [e1, e2]
  simp [List.append_assoc]

/-- The keys read from the table text that `init` writes are the keys of the table. -/
theorem parseEntries_rendered : ∀ (front : List GoString) (last : GoString) (fuel : Nat)
    (rest : List Nat), (∀ k ∈ front ++ [last], ∀ b ∈ k, isPlainByte b = true) →
    front.length < fuel →
    parseEntries fuel ((front.map topLevelEntry).flatten
        ++ ((utf8 "\t\"" ++ last ++ utf8 "\": true") ++ 10 :: 125 :: rest))
      = some (front ++ [last], rest) := by
  intro front
  induction front with
  | nil =>
    intro last fuel rest hplain hfuel
    obtain ⟨n, rfl⟩ : ∃ n, fuel = n + 1 := ⟨fuel - 1, by omega⟩
    have hr := readStringLiteral_plain last
      (58 :: 32 :: 116 :: 114 :: 117 :: 101 :: 10 :: 125 :: rest) (hplain last (by simp))
    simp only [List.map_nil, List.flatten_nil, List.nil_append, lastEntry_bytes]
    simp only [parseEntries, skipWhiteSpace_of_space 9 _ (by decide),
      skipWhiteSpace_of_not 34 _ (by decide), hr, skipWhiteSpace_of_not 58 _ (by decide),
      skipWhiteSpace_of_space 32 _ (by decide), skipWhiteSpace_of_not 116 _ (by decide),
      expectText_true, skipWhiteSpace_of_space 10 _ (by decide),
      skipWhiteSpace_of_not 125 _ (by decide)]
  | cons k ks ih =>
    intro last fuel rest hplain hfuel
    obtain ⟨n, rfl⟩ : ∃ n, fuel = n + 1 := ⟨fuel - 1, by omega⟩
    have hrec := ih last n rest (fun x hx => hplain x (by simp at hx ⊢; tauto))
      (by simp only [List.length_cons] at hfuel; omega)
    generalize hM : (ks.map topLevelEntry).flatten
        ++ ((utf8 "\t\"" ++ last ++ utf8 "\": true") ++ 10 :: 125 :: rest) = M at hrec
    have ht : ((k :: ks).map topLevelEntry).flatten
        ++ ((utf8 "\t\"" ++ last ++ utf8 "\": true") ++ 10 :: 125 :: rest)
        = 9 :: 34 :: (k ++ 34 :: 58 :: 32 :: 116 :: 114 :: 117 :: 101 :: 44 :: 10 :: M) := by
      rw [List.map_cons, List.flatten_cons, List.append_assoc, hM, topLevelEntry_bytes]
    have hr := readStringLiteral_plain k
      (58 :: 32 :: 116 :: 114 :: 117 :: 101 :: 44 :: 10 :: M) (hplain k (by simp))
    rw [ht]
    simp only [parseEntries, skipWhiteSpace_of_space 9 _ (by decide),
      skipWhiteSpace_of_not 34 _ (by decide), hr, skipWhiteSpace_of_not 58 _ (by decide),
      skipWhiteSpace_of_space 32 _ (by decide), skipWhiteSpace_of_not 116 _ (by decide),
      expectText_true, skipWhiteSpace_of_not 44 _ (by decide), parseEntries_line_break, hrec,
      List.cons_append]

theorem flatten_entries_length (front : List GoString) :
    front.length ≤ ((front.map topLevelEntry).flatten).length := by
  induction front with
  | nil => simp
  | cons k ks ih =>
    have e := topLevelEntry_bytes k []
    rw [List.append_nil] at e
    rw [List.map_cons, List.flatten_cons, List.length_append, e]
    simp only [List.length_cons, List.length_append]
    omega

theorem parseObjectBody_rendered (front : List GoString) (last : GoString) (rest : List Nat)
    (hplain : ∀ k ∈ front ++ [last], ∀ b ∈ k, isPlainByte b = true) :
    parseObjectBody ((front.map topLevelEntry).flatten
        ++ ((utf8 "\t\"" ++ last ++ utf8 "\": true") ++ 10 :: 125 :: rest))
      = some (front ++ [last], rest) := by
  generalize hT : (front.map topLevelEntry).flatten
      ++ ((utf8 "\t\"" ++ last ++ utf8 "\": true") ++ 10 :: 125 :: rest) = T
  have hlen : front.length < T.length := by
    have := flatten_entries_length front
    rw [← hT, List.length_append, List.length_append]
    simp only [List.length_cons]
    omega
  have hpe := parseEntries_rendered front last T.length rest hplain hlen
  rw [hT] at hpe
  have hY : ∃ Y, T = 9 :: 34 :: Y := by
    cases front with
    | nil =>
      rw [← hT, List.map_nil, List.flatten_nil, List.nil_append, lastEntry_bytes]
      exact ⟨_, rfl⟩
    | cons k ks =>
      rw [← hT, List.map_cons, List.flatten_cons, List.append_assoc, topLevelEntry_bytes]
      exact ⟨_, rfl⟩
  obtain ⟨Y, rfl⟩ := hY
  unfold parseObjectBody
  simp only [skipWhiteSpace_of_space 9 _ (by decide), skipWhiteSpace_of_not 34 _ (by decide)]
  exact hpe

theorem tmplFunctions_head : tmplFunctions = 10 :: 125 :: tmplFunctions.drop 2 := by
  have h : tmplFunctions.take 2 = [10, 125] := by decide
  have e := List.take_append_drop 2 tmplFunctions
  rw [h] at e
  exact e.symm

/-- For a plain proxy address the reader gets through the template text up to the array
literal of `directList`; what it answers is decided by the array and the object literal. -/
theorem servedFindProxyForURL_reads_array (p dl tl : GoString) (url host : JSString)
    (hpp : ∀ b ∈ p, isPlainAddrByte b = true) :
    servedFindProxyForURL (pacHeader ++ execute pacRawTmpl ⟨p, dl, tl⟩) url host
      = match parseArrayLiteral (tmplArrayOpen ++ dl ++ tmplArrayClose
            ++ (tmplBeforeTopLevel ++ tl ++ tmplFunctions)) with
        | some ([] :: L, t4) =>
          match expectText tmplBeforeTopLevel t4 with
          | none => none
          | some t5 =>
            match parseObjectBody t5 with
            | none => none
            | some (keys, t6) =>
              if t6 = tmplFunctions.drop 2 ∧ L.all isAscii = true
                  ∧ keys.all isAscii = true
                  ∧ keys.count (utf16 "__proto__") ≤ 1 then
                some (FindProxyForURL p L keys url host)
              else none
        | _ => none := by
  have eA : tmplBeforeArray = utf8 "; DIRECT" ++ 39 :: utf8 ";\n\nvar directList = " := by
    decide
  have hd : ∀ b ∈ utf8 "; DIRECT", isPlainAddrByte b = true := by decide
  have eP : tmplBeforeProxyAddr = 118 :: tmplBeforeProxyAddr.tail := by decide
  have eM : utf8 "function FindProxyForURL(url, host) \x7b return \x27"
      = 102 :: (utf8 "function FindProxyForURL(url, host) \x7b return \x27").tail := by decide
  rw [execute_pacRawTmpl]
  simp only
  generalize tmplArrayOpen ++ dl ++ tmplArrayClose
      ++ (tmplBeforeTopLevel ++ tl ++ tmplFunctions) = R
  have hdoc : pacHeader ++ (tmplBeforeProxyAddr ++ p ++ tmplBeforeArray ++ R)
      = pacHeader ++ (tmplBeforeProxyAddr ++ ((p ++ utf8 "; DIRECT")
          ++ 39 :: (utf8 ";\n\nvar directList = " ++ R))) := by
    rw [eA]
    simp only [List.append_assoc, List.cons_append]
  have h1 := expectText_append pacHeader (tmplBeforeProxyAddr ++ ((p ++ utf8 "; DIRECT")
      ++ 39 :: (utf8 ";\n\nvar directList = " ++ R)))
  have h2 : expectText (utf8 "function FindProxyForURL(url, host) \x7b return \x27")
      (tmplBeforeProxyAddr ++ ((p ++ utf8 "; DIRECT")
        ++ 39 :: (utf8 ";\n\nvar directList = " ++ R))) = none := by
    rw [eM, eP, List.cons_append]
    exact expectText_head_ne 102 118 _ _ (by decide)
  have h3 := expectText_append tmplBeforeProxyAddr ((p ++ utf8 "; DIRECT")
      ++ 39 :: (utf8 ";\n\nvar directList = " ++ R))
  have hs : ∀ b ∈ p ++ utf8 "; DIRECT", isPlainAddrByte b = true := by
    intro b hb
    rcases List.mem_append.mp hb with hb | hb
    · exact hpp b hb
    · exact hd b hb
  have h4 := readSingleQuoted_plain (p ++ utf8 "; DIRECT")
    (utf8 ";\n\nvar directList = " ++ R) hs
  have h5 : (utf8 "; DIRECT").isSuffixOf (p ++ utf8 "; DIRECT") = true :=
    List.isSuffixOf_iff_suffix.mpr (List.suffix_append p _)
  have h6 : isAscii (p ++ utf8 "; DIRECT") = true := isAscii_of_plain_addr _ hs
  have h7 : (p ++ utf8 "; DIRECT").take ((p ++ utf8 "; DIRECT").length - 8) = p := by
    apply List.take_left'
    have : (utf8 "; DIRECT").length = 8 := by decide
    rw [List.length_append, this]
    omega
  have h8 := expectText_append (utf8 ";\n\nvar directList = ") R
  rw [hdoc]
  unfold servedFindProxyForURL
  simp only [h1, h2, h3, h4, h5, h6, h7, h8, and_self, if_true]

/-- In a list without duplicates every string occurs at most once. -/
theorem count_le_one_of_nodup (l : List JSString) (a : JSString) (h : l.Nodup) :
    l.count a ≤ 1 := by
  induction l with
  | nil => simp
  | cons x xs ih =>
    rw [List.nodup_cons] at h
    rw [List.count_cons]
    have h2 := ih h.2
    split_ifs with e
    · have e2 : x = a := by simpa using e
      subst e2
      have h3 : List.count x xs = 0 := List.count_eq_zero_of_not_mem h.1
      omega
    · omega

/-- The function read from the full document that `genPAC` writes for plain strings, with a
table that names `__proto__` at most once, is the function of the script run with the proxy
address, the list and the keys. -/
theorem servedFindProxyForURL_full (p : GoString) (ds front : List GoString)
    (last : GoString) (url host : JSString)
    (hpp : ∀ b ∈ p, isPlainAddrByte b = true)
    (hne : ds ≠ []) (hplain : ∀ x ∈ ds, ∀ b ∈ x, isPlainByte b = true)
    (hkeys : ∀ k ∈ front ++ [last], ∀ b ∈ k, isPlainByte b = true)
    (hproto : (front ++ [last]).count (utf16 "__proto__") ≤ 1) :
    servedFindProxyForURL (pacHeader ++ execute pacRawTmpl
        ⟨p, Join ds (utf8 "\",\n\""),
          (front.map topLevelEntry).flatten ++ (utf8 "\t\"" ++ last ++ utf8 "\": true")⟩)
        url host
      = some (FindProxyForURL p ds (front ++ [last]) url host) := by
  have eF := tmplFunctions_head
  generalize hT : tmplBeforeTopLevel ++ ((front.map topLevelEntry).flatten
      ++ (utf8 "\t\"" ++ last ++ utf8 "\": true")) ++ tmplFunctions = T
  have hT2 : T = tmplBeforeTopLevel ++ ((front.map topLevelEntry).flatten
      ++ ((utf8 "\t\"" ++ last ++ utf8 "\": true") ++ 10 :: 125 :: tmplFunctions.drop 2)) := by
    rw [← hT]
    conv_lhs => rw [eF]
    simp only [List.append_assoc]
  have h9 : parseArrayLiteral (tmplArrayOpen ++ Join ds (utf8 "\",\n\"") ++ tmplArrayClose
      ++ T) = some ([] :: ds, T) := parseArrayLiteral_rendered ds T hne hplain
  have h10 : expectText tmplBeforeTopLevel T = some ((front.map topLevelEntry).flatten
      ++ ((utf8 "\t\"" ++ last ++ utf8 "\": true") ++ 10 :: 125 :: tmplFunctions.drop 2)) := by
    rw [hT2]
    exact expectText_append _ _
  have h11 := parseObjectBody_rendered front last (tmplFunctions.drop 2) hkeys
  have h12 : ds.all isAscii = true :=
    List.all_eq_true.mpr (fun x hx => isAscii_of_plain x (hplain x hx))
  have h13 : (front ++ [last]).all isAscii = true :=
    List.all_eq_true.mpr (fun x hx => isAscii_of_plain x (hkeys x hx))
  rw [servedFindProxyForURL_reads_array p _ _ url host hpp]
  simp only [hT, h9, h10, h11, h12, h13, hproto, and_self, if_true]

theorem parseElements_line_feed (n : Nat) (X : List Nat) :
    parseElements (n + 2) (10 :: 34 :: 34 :: 44 :: 10 :: 34 :: 97 :: 10 :: X) = none := by
  have r1 : readStringLiteral (34 :: 44 :: 10 :: 34 :: 97 :: 10 :: X)
      = some ([], 44 :: 10 :: 34 :: 97 :: 10 :: X) := by
    simp [readStringLiteral]
  have r2 : readStringLiteral (97 :: 10 :: X) = none := by
    simp [readStringLiteral]
  rw [parseElements_line_break]
  simp only [parseElements, skipWhiteSpace_of_not 34 _ (by decide), r1,
    skipWhiteSpace_of_not 44 _ (by decide), skipWhiteSpace_of_space 10 _ (by decide), r2]

/-- A domain with a line feed breaks the string literal it is written into: the document
that `genPAC` writes for the provider list holding `a`, line feed, `b` defines no function. -/
theorem servedFindProxyForURL_line_feed (p tl : GoString) (url host : JSString)
    (hpp : ∀ b ∈ p, isPlainAddrByte b = true) :
    servedFindProxyForURL (pacHeader ++ execute pacRawTmpl
        ⟨p, Join [utf8 "a\nb"] (utf8 "\",\n\""), tl⟩) url host = none := by
  have ho : tmplArrayOpen = [91, 10, 34, 34, 44, 10, 34] := by decide
  have hj : Join [utf8 "a\nb"] (utf8 "\",\n\"") = [97, 10, 98] := by decide
  have h9 : parseArrayLiteral (tmplArrayOpen ++ Join [utf8 "a\nb"] (utf8 "\",\n\"")
      ++ tmplArrayClose ++ (tmplBeforeTopLevel ++ tl ++ tmplFunctions)) = none := by
    rw [ho, hj, List.append_assoc]
    generalize tmplArrayClose ++ (tmplBeforeTopLevel ++ tl ++ tmplFunctions) = X
    have e : [91, 10, 34, 34, 44, 10, 34] ++ [97, 10, 98] ++ X
        = 91 :: 10 :: 34 :: 34 :: 44 :: 10 :: 34 :: 97 :: 10 :: (98 :: X) := by
      simp
    rw [e]
    unfold parseArrayLiteral
    have hl : (10 :: 34 :: 34 :: 44 :: 10 :: 34 :: 97 :: 10 :: (98 :: X)).length
        = (X.length + 7) + 2 := by
      simp
    simp only [hl]
    exact parseElements_line_feed _ _
  rw [servedFindProxyForURL_reads_array p _ _ url host hpp, h9]

set_option maxRecDepth 100000 in
/-- C12, as stated, fails: for the empty direct list `genPAC` returns the minimal document,
and the function read from that document answers with the proxy for every host, the
private host `10.0.0.5` included. -/
theorem servedFindProxyForURL_empty_list_counterexample :
    (∀ (splitHostPort : GoString → Option GoString)
        (joinHostPort : GoString → GoString → GoString),
        genPAC splitHostPort joinHostPort (updateDirectList [] ⟨utf8 "\t\"co\": true", []⟩)
            ⟨true, utf8 "127.0.0.1:1080", utf8 "1080", utf8 "127.0.0.1:1080"⟩
          = some (pacHeader ++ minimalBody (utf8 "127.0.0.1:1080")))
      ∧ servedFindProxyForURL (pacHeader ++ minimalBody (utf8 "127.0.0.1:1080"))
          (utf16 "http://10.0.0.5/") (utf16 "10.0.0.5")
        = some (utf16 "PROXY 127.0.0.1:1080; DIRECT")
      ∧ utf16 "PROXY 127.0.0.1:1080; DIRECT" ≠ utf16 "DIRECT" := by
  refine ⟨fun splitHostPort joinHostPort => ?_, by decide, by decide⟩
  exact genPAC_of_empty splitHostPort joinHostPort
    (updateDirectList [] ⟨utf8 "\t\"co\": true", []⟩)
    ⟨true, utf8 "127.0.0.1:1080", utf8 "1080", utf8 "127.0.0.1:1080"⟩ (utf8 "127.0.0.1:1080")
    (pacProxyAddr_of_addrInPAC splitHostPort joinHostPort _ rfl (by decide)) rfl

/-- C12, amended: when the proxy address, the domains of the direct list and the keys of the
table are plain strings (bytes below 128, no backslash or line break, no single quote in
the address and no double quote in the domains and keys), the keys are distinct, as the keys
of a Go map are, and the joined list is not empty, `genPAC` returns the header followed by
the full script, and the function read from that document answers `DIRECT` for every
private dotted-decimal host, for every url. -/
theorem servedFindProxyForURL_private_ipv4 (splitHostPort : GoString → Option GoString)
    (joinHostPort : GoString → GoString → GoString) (conn : ClientConn)
    (p tl stored : GoString) (ds keys : List GoString) (url : JSString) (a b c d : Nat)
    (hp : pacProxyAddr splitHostPort joinHostPort conn = some p)
    (hpp : ∀ x ∈ p, isPlainAddrByte x = true)
    (hne : Join ds (utf8 "\",\n\"") ≠ [])
    (hplain : ∀ x ∈ ds, ∀ y ∈ x, isPlainByte y = true)
    (htl : initTopLevelDomain keys = some tl)
    (hkeys : ∀ k ∈ keys, ∀ y ∈ k, isPlainByte y = true)
    (hnodup : keys.Nodup)
    (ha : a ≤ 255) (hb : b ≤ 255) (hc : c ≤ 255) (hd : d ≤ 255)
    (hpriv : a = 10 ∨ a = 127 ∨ (a = 192 ∧ b = 168) ∨ (a = 172 ∧ 16 ≤ b ∧ b ≤ 31)) :
    genPAC splitHostPort joinHostPort (updateDirectList ds ⟨tl, stored⟩) conn
        = some (pacHeader ++ execute pacRawTmpl ⟨p, Join ds (utf8 "\",\n\""), tl⟩)
      ∧ servedFindProxyForURL
          (pacHeader ++ execute pacRawTmpl ⟨p, Join ds (utf8 "\",\n\""), tl⟩)
          url (dotted a b c d) = some (utf16 "DIRECT") := by
  have hds : ds ≠ [] := by
    intro e
    rw [e] at hne
    exact hne rfl
  refine ⟨genPAC_of_nonempty splitHostPort joinHostPort (updateDirectList ds ⟨tl, stored⟩)
    conn p hp hne, ?_⟩
  rcases List.eq_nil_or_concat keys with e | ⟨front, last, e⟩
  · rw [e] at htl
    have hnone : initTopLevelDomain [] = none := rfl
    rw [hnone] at htl
    exact absurd htl (by simp)
  · have e2 : keys = front ++ [last] := by simpa using e
    subst e2
    have hc2 := (initTopLevelDomain_concat front last).2
    rw [htl] at hc2
    rw [Option.some.inj hc2, servedFindProxyForURL_full p ds front last url _ hpp hds hplain
      hkeys (count_le_one_of_nodup _ _ hnodup),
      findProxyForURL_private_ipv4 p ds (front ++ [last]) url a b c d ha hb hc hd hpriv]

/-- C12, amended, at the host `10.0.0.5` with the provider list `example.com`, `foo.org`,
the table keys `co`, `com` and the proxy address `127.0.0.1:1080`. -/
theorem servedFindProxyForURL_private_ipv4_witness :
    dotted 10 0 0 5 = utf16 "10.0.0.5"
      ∧ initTopLevelDomain [utf8 "co", utf8 "com"]
        = some (utf8 "\t\"co\": true,\n\t\"com\": true")
      ∧ servedFindProxyForURL
          (pacHeader ++ execute pacRawTmpl
            ⟨utf8 "127.0.0.1:1080",
              Join [utf8 "example.com", utf8 "foo.org"] (utf8 "\",\n\""),
              utf8 "\t\"co\": true,\n\t\"com\": true"⟩)
          (utf16 "http://10.0.0.5/") (dotted 10 0 0 5) = some (utf16 "DIRECT") :=
  ⟨by decide, by decide,
    (servedFindProxyForURL_private_ipv4 (fun _ => none) (fun h p => h ++ utf8 ":" ++ p)
      ⟨true, utf8 "127.0.0.1:1080", utf8 "1080", utf8 "127.0.0.1:1080"⟩
      (utf8 "127.0.0.1:1080") (utf8 "\t\"co\": true,\n\t\"com\": true") []
      [utf8 "example.com", utf8 "foo.org"] [utf8 "co", utf8 "com"]
      (utf16 "http://10.0.0.5/") 10 0 0 5 (by decide) (by decide) (by decide) (by decide)
      (by decide) (by decide) (by decide) (by decide) (by decide) (by decide) (by decide)
      (Or.inl rfl)).2⟩

/-- C18, as stated, fails: for the list of the one domain `a","b` the template is used and
the domain is inserted as it is, so the array literal reads as three elements, the empty
string, `a` and `b`, not as the two elements the claim counts. -/
theorem parseArrayLiteral_quote_counterexample :
    [utf8 "a\",\"b"].length = 1
      ∧ getDirectList (updateDirectList [utf8 "a\",\"b"] ⟨[], []⟩) ≠ []
      ∧ parseArrayLiteral
          (tmplArrayOpen ++ Join [utf8 "a\",\"b"] (utf8 "\",\n\"") ++ tmplArrayClose)
        = some ([[], utf16 "a", utf16 "b"], []) := by
  decide

/-- C18, amended: when the joined list is not empty, `genPAC` returns the header followed by
the template text in which the three fields are replaced as they are, the direct-domain
field by the domains joined with `",\n"`, for every list.  When moreover every domain is
made of bytes below 128 other than the double quote, the backslash and the line breaks, the
array literal assigned to `directList` reads as the empty string followed by the domains in
the order of the provider, `n + 1` elements, and `directAcc[k]` is truthy, for a `k` that
names no inherited property, exactly for the empty string and the members of the list. -/
theorem genPAC_full_template (splitHostPort : GoString → Option GoString)
    (joinHostPort : GoString → GoString → GoString) (pac : PacVars) (conn : ClientConn)
    (p : GoString) (ds : List GoString)
    (hp : pacProxyAddr splitHostPort joinHostPort conn = some p)
    (hne : Join ds (utf8 "\",\n\"") ≠ []) :
    genPAC splitHostPort joinHostPort (updateDirectList ds pac) conn
        = some (pacHeader ++ (tmplBeforeProxyAddr ++ p ++ tmplBeforeArray
            ++ (tmplArrayOpen ++ Join ds (utf8 "\",\n\"") ++ tmplArrayClose
              ++ (tmplBeforeTopLevel ++ pac.topLevelDomain ++ tmplFunctions))))
      ∧ utf8 "var directList = " <:+ tmplBeforeArray
      ∧ ((∀ x ∈ ds, ∀ b ∈ x, isPlainByte b = true) →
          ∃ elems, parseArrayLiteral (tmplArrayOpen ++ Join ds (utf8 "\",\n\"")
                ++ tmplArrayClose
                ++ (tmplBeforeTopLevel ++ pac.topLevelDomain ++ tmplFunctions))
              = some (elems, tmplBeforeTopLevel ++ pac.topLevelDomain ++ tmplFunctions)
            ∧ elems = [] :: ds ∧ elems.length = ds.length + 1
            ∧ ∀ k : JSString, k ∉ objectPrototypeKeys →
                (truthyProp elems k = true ↔ k = [] ∨ k ∈ ds)) := by
  have hds : ds ≠ [] := by
    intro e
    rw [e] at hne
    exact hne rfl
  refine ⟨?_, by decide, fun hplain => ⟨[] :: ds, parseArrayLiteral_rendered ds _ hds hplain,
    rfl, rfl, ?_⟩⟩
  · rw [genPAC_of_nonempty splitHostPort joinHostPort (updateDirectList ds pac) conn p hp hne,
      execute_pacRawTmpl]
    rfl
  · intro k hk
    have := truthyProp_directList ds k hk
    rw [directList] at this
    rw [this]
    simp

/-- C18, amended, at the provider list `example.com`, `foo.org`. -/
theorem genPAC_full_template_witness :
    ∃ elems, parseArrayLiteral (tmplArrayOpen
          ++ Join [utf8 "example.com", utf8 "foo.org"] (utf8 "\",\n\"") ++ tmplArrayClose
          ++ (tmplBeforeTopLevel ++ (⟨[], []⟩ : PacVars).topLevelDomain ++ tmplFunctions))
        = some (elems,
            tmplBeforeTopLevel ++ (⟨[], []⟩ : PacVars).topLevelDomain ++ tmplFunctions)
      ∧ elems = [] :: [utf8 "example.com", utf8 "foo.org"]
      ∧ elems.length = [utf8 "example.com", utf8 "foo.org"].length + 1
      ∧ ∀ k : JSString, k ∉ objectPrototypeKeys →
          (truthyProp elems k = true ↔ k = [] ∨ k ∈ [utf8 "example.com", utf8 "foo.org"]) :=
  (genPAC_full_template (fun _ => none) (fun h p => h ++ utf8 ":" ++ p) ⟨[], []⟩
    ⟨true, utf8 "127.0.0.1:1080", utf8 "1080", utf8 "127.0.0.1:1080"⟩ (utf8 "127.0.0.1:1080")
    [utf8 "example.com", utf8 "foo.org"] (by decide) (by decide)).2.2 (by decide)

end Pac
